import Mathlib

/-!
Verification of the `jalapeno` Markdown → Notion conversion core
(`internal/jalapeno`: `jalapeno.go`, `builder_rich_text.go`, `builder_block.go`,
`helpers_notionapi.go`).

Shallow-embedding conventions:

* goldmark AST nodes reference the original byte buffer via line/segment
  spans; here every node carries the referenced text inline (the `source`
  parameter of the Go builders is therefore implicit in the node values).
* `contentFromLines` joins a node's line spans and trims surrounding
  whitespace; we store the joined text and model the helper with the
  character-level `trimSpace` below.  `contentFromSegments` joins without
  trimming and is modelled as identity on the stored text.
* Go builder closures are defunctionalised (as the spec's design notes
  themselves prescribe): a rich-text builder is its base value plus the
  ordered decorator list; a block builder is a tagged value carrying exactly
  the data the corresponding Go closure captures.
* A Go `panic` is a distinct outcome from a normal return; `GoResult`
  makes it explicit.  A `nil` builder pointer is `Option.none`; building a
  `nil` rich-text builder dereferences it and would panic, which surfaces as
  `Option.none` in `NtRichTextBuilders.Build`.
* The `nt.*` constructors and annotation mutators come from the
  `amberpixels/notionapi` fork, which is not part of this repository's
  sources; where needed they are modelled from the spec (and pinned by this
  repository's own tests), and each such definition says so in its
  doc comment.
-/

/-- Annotation flags of a Notion rich text (the fork's `nt.Annotations`):
Bold, Italic, Strikethrough, Code may coexist. -/
structure Annotations where
  bold : Bool
  italic : Bool
  strikethrough : Bool
  code : Bool
deriving DecidableEq, Repr

/-- The all-false annotation set a freshly constructed rich text carries. -/
def Annotations.none : Annotations := ⟨false, false, false, false⟩

/-- A materialised Notion rich text run: content, annotation set, optional
link URL (`nt.RichText`, restricted to the fields this core produces). -/
structure NtRichText where
  content : String
  annotations : Annotations
  link : Option String
deriving DecidableEq, Repr

/-- Modelled from the spec: the fork's `nt.NewTextRichText` produces a plain
text run with no annotations and no link. -/
def NewTextRichText (content : String) : NtRichText :=
  ⟨content, Annotations.none, Option.none⟩

/-- Modelled from the spec: the fork's `nt.NewLinkRichText` produces a run
whose content is the label and whose link is the URL. -/
def NewLinkRichText (label url : String) : NtRichText :=
  ⟨label, Annotations.none, some url⟩

/-- The decorator functions of `builder_rich_text.go`, defunctionalised:
`boldDecorator`, `italicDecorator`, `strikethroughDecorator`,
`codeDecorator` and `linkDecorator(url)`. -/
inductive RichTextDecorator where
  | bold
  | italic
  | strikethrough
  | code
  | link (url : String)
deriving DecidableEq, Repr

/-- Modelled from the spec: the fork's `AnnotateBold` / `AnnotateItalic` /
`AnnotateStrikethrough` / `AnnotateCode` each set their flag to true, and
`MakeLink` overwrites the single-valued link field. -/
def applyDecorator : RichTextDecorator → NtRichText → NtRichText
  | .bold, t => { t with annotations := { t.annotations with bold := true } }
  | .italic, t => { t with annotations := { t.annotations with italic := true } }
  | .strikethrough, t =>
      { t with annotations := { t.annotations with strikethrough := true } }
  | .code, t => { t with annotations := { t.annotations with code := true } }
  | .link url, t => { t with link := some url }

/-- `NtRichTextBuilder` (`builder_rich_text.go`): the deferred constructor
(already applied to the fixed source, giving `base`) plus the ordered
decorator list appended by `DecorateWith`. -/
structure NtRichTextBuilder where
  base : NtRichText
  decorators : List RichTextDecorator
deriving DecidableEq, Repr

/-- `NewNtRichTextBuilder`: empty decorator list. -/
def NewNtRichTextBuilder (base : NtRichText) : NtRichTextBuilder := ⟨base, []⟩

/-- `(*NtRichTextBuilder).DecorateWith`: append one decorator. -/
def NtRichTextBuilder.DecorateWith (b : NtRichTextBuilder)
    (d : RichTextDecorator) : NtRichTextBuilder :=
  ⟨b.base, b.decorators ++ [d]⟩

/-- `(*NtRichTextBuilder).Build`: construct, then apply every decorator in
append order. -/
def NtRichTextBuilder.Build (b : NtRichTextBuilder) : NtRichText :=
  b.decorators.foldl (fun t d => applyDecorator d t) b.base

/-- `NtRichTextBuilders` is `[]*NtRichTextBuilder` in Go: elements may be
`nil` pointers (e.g. `ToRichText` of an unsupported kind), hence `Option`. -/
abbrev NtRichTextBuilders := List (Option NtRichTextBuilder)

/-- `(NtRichTextBuilders).Build`: builds every element in order.  Calling
`Build` through a `nil` pointer panics in Go, surfaced here as `none`. -/
def NtRichTextBuilders.Build (bs : NtRichTextBuilders) :
    Option (List NtRichText) :=
  bs.mapM (fun ob => ob.map NtRichTextBuilder.Build)

/-- Go's `bytes.TrimSpace` / `strings.TrimSpace`: drop leading and
trailing whitespace characters. -/
def trimSpace (s : String) : String :=
  String.mk
    (((s.data.dropWhile Char.isWhitespace).reverse.dropWhile
        Char.isWhitespace).reverse)

/-- Go's `strings.ToLower`, character-wise. -/
def toLowerStr (s : String) : String := String.mk (s.data.map Char.toLower)

/-- `html2notion` (`helpers_notionapi.go`): trims surrounding whitespace,
lowercases, maps the line-break tag `<br>` to a newline and otherwise
returns the (trimmed, lowercased) text. -/
def html2notion (contentHTML : String) : String :=
  let contentHTML := trimSpace contentHTML
  let contentHTML := toLowerStr contentHTML
  if contentHTML = "<br>" then "\n" else contentHTML

/-- `sanitizeBlockLanguage` (`helpers_notionapi.go`). -/
def sanitizeBlockLanguage (language : String) : String :=
  if language = "" then "plain text" else language

/-! ### The markdownlint-comment stripper (`jalapeno.go`)

`markdownLintRegex = (?i)<!--\s*markdownlint-.*?-->` and
`sanitizeMarkdownLintComments` trims the result of removing all matches.
The regex is implemented directly: `\s*` skips whitespace, the literal
parts match case-insensitively, and the lazy `.*?-->` consumes the nearest
closing `-->` with no intervening newline (Go's `.` does not match `\n`). -/

/-- Case-insensitive character comparison for the literal regex parts. -/
def charLowerEq (a b : Char) : Bool := a.toLower == b.toLower

/-- Strip a literal pattern prefix case-insensitively; `none` if absent. -/
def stripPrefixCI : List Char → List Char → Option (List Char)
  | [], cs => some cs
  | _ :: _, [] => Option.none
  | p :: ps, c :: cs => if charLowerEq p c then stripPrefixCI ps cs else Option.none

/-- The lazy `.*?-->` tail: consume up to the nearest `-->`, failing on a
newline or end of input. -/
def scanLazyClose : List Char → Option (List Char)
  | [] => Option.none
  | c :: rest =>
      if c = '-' ∧ rest.take 2 = ['-', '>'] then some (rest.drop 2)
      else if c = '\n' then Option.none
      else scanLazyClose rest

/-- Try to match one markdownlint comment starting exactly here, returning
the input remaining after the match. -/
def matchLintCommentAt (cs : List Char) : Option (List Char) :=
  match stripPrefixCI "<!--".data cs with
  | Option.none => Option.none
  | some r1 =>
      match stripPrefixCI "markdownlint-".data (r1.dropWhile Char.isWhitespace) with
      | Option.none => Option.none
      | some r2 => scanLazyClose r2

theorem stripPrefixCI_length {p cs r : List Char}
    (h : stripPrefixCI p cs = some r) : r.length + p.length = cs.length := by
  induction p generalizing cs with
  | nil => simp [stripPrefixCI] at h; simp [h]
  | cons x xs ih =>
      cases cs with
      | nil => simp [stripPrefixCI] at h
      | cons c cs =>
          simp only [stripPrefixCI] at h
          split at h
          · have := ih h
            simp [List.length_cons]
            omega
          · exact absurd h (by simp)

theorem scanLazyClose_length {cs r : List Char}
    (h : scanLazyClose cs = some r) : r.length ≤ cs.length := by
  induction cs with
  | nil => simp [scanLazyClose] at h
  | cons c rest ih =>
      simp only [scanLazyClose] at h
      split at h
      · cases h
        calc (rest.drop 2).length ≤ rest.length := by simp
          _ ≤ (c :: rest).length := by simp
      · split at h
        · cases h
        · exact Nat.le_trans (ih h) (by simp)

theorem length_dropWhile_le (p : Char → Bool) (l : List Char) :
    (l.dropWhile p).length ≤ l.length := by
  induction l with
  | nil => simp
  | cons c cs ih =>
      rw [List.dropWhile_cons]
      split
      · exact Nat.le_trans ih (by simp)
      · exact Nat.le_refl _

theorem matchLintCommentAt_length {cs r : List Char}
    (h : matchLintCommentAt cs = some r) : r.length < cs.length := by
  unfold matchLintCommentAt at h
  cases h1 : stripPrefixCI "<!--".data cs with
  | none => simp only [h1] at h; cases h
  | some r1 =>
      simp only [h1] at h
      cases h2 : stripPrefixCI "markdownlint-".data (r1.dropWhile Char.isWhitespace) with
      | none => simp only [h2] at h; cases h
      | some r2 =>
          simp only [h2] at h
          have l1 := stripPrefixCI_length h1
          have l2 := stripPrefixCI_length h2
          have l3 := scanLazyClose_length h
          have l4 : (r1.dropWhile Char.isWhitespace).length ≤ r1.length :=
            length_dropWhile_le _ _
          have e1 : ("<!--".data).length = 4 := rfl
          have e2 : ("markdownlint-".data).length = 13 := rfl
          omega

/-- `ReplaceAllString(content, "")`: scan left to right, removing every
(leftmost, lazy-shortest) markdownlint comment. -/
def stripLint (cs : List Char) : List Char :=
  match hm : matchLintCommentAt cs with
  | some rest => stripLint rest
  | Option.none =>
      match cs with
      | [] => []
      | c :: cs' => c :: stripLint cs'
termination_by cs.length
decreasing_by
  · exact matchLintCommentAt_length hm
  · simp

/-- `sanitizeMarkdownLintComments` (`jalapeno.go`): remove markdownlint
comments, then trim surrounding whitespace. -/
def sanitizeMarkdownLintComments (content : String) : String :=
  trimSpace (String.mk (stripLint content.data))

/-! ### The source AST (goldmark node kinds the converter reads)

Each node inlines the text its byte spans reference: `linesText` is the
joined `Lines()` content (pre-trim), `segmentText` the joined `Segments`
content. -/

/-- A goldmark AST node, as read by the converter. -/
inductive MdNode where
  | text (value : String)
  | emphasis (level : Nat) (children : List MdNode)
  | strikethrough (children : List MdNode)
  | codeSpan (children : List MdNode)
  | link (destination : String) (children : List MdNode)
  | autoLink (label : String) (url : String)
  | rawHTML (segmentText : String)
  | htmlBlock (linesText : String)
  | heading (level : Nat) (linesText : String) (children : List MdNode)
  | paragraph (children : List MdNode)
  | textBlock (children : List MdNode)
  | blockquote (children : List MdNode)
  | list (marker : Char) (children : List MdNode)
  | listItem (children : List MdNode)
  | taskCheckbox (isChecked : Bool)
  | fencedCode (language : String) (linesText : String)
  | codeBlock (linesText : String)
  | table (children : List MdNode)
  | tableHeader (children : List MdNode)
  | tableRow (children : List MdNode)
  | tableCell (children : List MdNode)
  | image (destination : String) (children : List MdNode)
  | thematicBreak
  | unsupported (kindName : String) (children : List MdNode)

/-- The node's ordered child sequence (`FirstChild()`/`NextSibling()`;
leaf kinds have none). -/
def MdNode.children : MdNode → List MdNode
  | .text _ => []
  | .emphasis _ cs => cs
  | .strikethrough cs => cs
  | .codeSpan cs => cs
  | .link _ cs => cs
  | .autoLink _ _ => []
  | .rawHTML _ => []
  | .htmlBlock _ => []
  | .heading _ _ cs => cs
  | .paragraph cs => cs
  | .textBlock cs => cs
  | .blockquote cs => cs
  | .list _ cs => cs
  | .listItem cs => cs
  | .taskCheckbox _ => []
  | .fencedCode _ _ => []
  | .codeBlock _ => []
  | .table cs => cs
  | .tableHeader cs => cs
  | .tableRow cs => cs
  | .tableCell cs => cs
  | .image _ cs => cs
  | .thematicBreak => []
  | .unsupported _ cs => cs

/-- `node.Kind().String()`, for panic messages. -/
def MdNode.kindName : MdNode → String
  | .text _ => "Text"
  | .emphasis _ _ => "Emphasis"
  | .strikethrough _ => "Strikethrough"
  | .codeSpan _ => "CodeSpan"
  | .link _ _ => "Link"
  | .autoLink _ _ => "AutoLink"
  | .rawHTML _ => "RawHTML"
  | .htmlBlock _ => "HTMLBlock"
  | .heading _ _ _ => "Heading"
  | .paragraph _ => "Paragraph"
  | .textBlock _ => "TextBlock"
  | .blockquote _ => "Blockquote"
  | .list _ _ => "List"
  | .listItem _ => "ListItem"
  | .taskCheckbox _ => "TaskCheckBox"
  | .fencedCode _ _ => "FencedCodeBlock"
  | .codeBlock _ => "CodeBlock"
  | .table _ => "Table"
  | .tableHeader _ => "TableHeader"
  | .tableRow _ => "TableRow"
  | .tableCell _ => "TableCell"
  | .image _ _ => "Image"
  | .thematicBreak => "ThematicBreak"
  | .unsupported kindName _ => kindName

/-- `node.FirstChild()` (`none` = Go `nil`). -/
def MdNode.firstChild (n : MdNode) : Option MdNode := n.children.head?

/-- `contentFromLines` (`helpers_goldmark.go`): join the line spans, then
trim surrounding whitespace.  The joined text is stored in the node. -/
def contentFromLines (linesText : String) : String := trimSpace linesText

/-- `contentFromSegments` (`helpers_goldmark.go`): join the segment spans,
no trimming. -/
def contentFromSegments (segmentText : String) : String := segmentText

theorem MdNode.sizeOf_children_lt (n : MdNode) (h : n.children ≠ []) :
    sizeOf n.children < sizeOf n := by
  cases n <;> simp_all [MdNode.children] <;> omega

/-- `IsConvertableToRichText` (`jalapeno.go`): pure classification over the
node kind, with one level of lookahead for `Link` (image first child) and
`TextBlock` (task checkbox first child). -/
def IsConvertableToRichText : MdNode → Bool
  | .text _ => true
  | .codeBlock _ => true
  | .fencedCode _ _ => true
  | .listItem _ => true
  | .autoLink _ _ => true
  | .rawHTML _ => true
  | .htmlBlock _ => true
  | .paragraph _ => true
  | .emphasis _ _ => true
  | .strikethrough _ => true
  | .codeSpan _ => true
  | .link _ cs =>
      match cs.head? with
      | some (.image _ _) => false
      | _ => true
  | .textBlock cs =>
      match cs.head? with
      | some (.taskCheckbox _) => false
      | _ => true
  | _ => false

/-- `ToRichText` (`jalapeno.go`): the per-kind rich-text constructor; the
default branch returns a `nil` builder pointer (`none`). -/
def ToRichText : MdNode → Option NtRichTextBuilder
  | .heading _ linesText _ =>
      some (NewNtRichTextBuilder (NewTextRichText (contentFromLines linesText)))
  | .text v => some (NewNtRichTextBuilder (NewTextRichText v))
  | .fencedCode _ linesText =>
      some (NewNtRichTextBuilder (NewTextRichText (contentFromLines linesText)))
  | .codeBlock linesText =>
      some (NewNtRichTextBuilder (NewTextRichText (contentFromLines linesText)))
  | .autoLink label url =>
      some (NewNtRichTextBuilder (NewLinkRichText label url))
  | .rawHTML segmentText =>
      some (NewNtRichTextBuilder
        (NewTextRichText (html2notion (contentFromSegments segmentText))))
  | .htmlBlock linesText =>
      some (NewNtRichTextBuilder
        (NewTextRichText (html2notion (contentFromLines linesText))))
  | _ => Option.none

/-- `decorateRichTexts` (`jalapeno.go`): decorate every builder in the list
according to the parent's kind.  (In Go, `DecorateWith` on a `nil` element
would panic; the embedded paths only decorate lists whose elements are all
non-`nil`, see the `isSome` hypotheses of the decoration theorems.) -/
def decorateRichTexts (parent : MdNode) (richTexts : NtRichTextBuilders) :
    NtRichTextBuilders :=
  match parent with
  | .strikethrough _ =>
      richTexts.map (Option.map (NtRichTextBuilder.DecorateWith · .strikethrough))
  | .emphasis level _ =>
      richTexts.map (Option.map (NtRichTextBuilder.DecorateWith ·
        (if level = 1 then .italic else .bold)))
  | .codeSpan _ =>
      richTexts.map (Option.map (NtRichTextBuilder.DecorateWith · .code))
  | .link destination _ =>
      richTexts.map (Option.map (NtRichTextBuilder.DecorateWith · (.link destination)))
  | _ => richTexts

mutual

/-- `ExtractRichTexts` (`jalapeno.go`): a childless node becomes the single
builder `ToRichText` returns (possibly a `nil` pointer); otherwise the
children's extractions are concatenated in order, each decorated according
to this node's kind. -/
def ExtractRichTexts (n : MdNode) : NtRichTextBuilders :=
  match hc : n.children with
  | [] => [ToRichText n]
  | c :: rest => extractChildren n (c :: rest)
termination_by sizeOf n
decreasing_by
  rw [← hc]
  exact MdNode.sizeOf_children_lt n (by rw [hc]; simp)

/-- The child loop of `ExtractRichTexts`. -/
def extractChildren (parent : MdNode) : List MdNode → NtRichTextBuilders
  | [] => []
  | c :: rest =>
      decorateRichTexts parent (ExtractRichTexts c) ++ extractChildren parent rest
termination_by cs => sizeOf cs
decreasing_by
  all_goals (simp; try omega)

end

theorem ExtractRichTexts_leaf {n : MdNode} (h : n.children = []) :
    ExtractRichTexts n = [ToRichText n] := by
  rw [ExtractRichTexts]
  split
  · rfl
  · simp_all

theorem ExtractRichTexts_node {n : MdNode} (h : n.children ≠ []) :
    ExtractRichTexts n = extractChildren n n.children := by
  rw [ExtractRichTexts]
  split
  · simp_all
  · simp_all

theorem extractChildren_nil (parent : MdNode) : extractChildren parent [] = [] := by
  rw [extractChildren]

theorem extractChildren_cons (parent c : MdNode) (rest : List MdNode) :
    extractChildren parent (c :: rest) =
      decorateRichTexts parent (ExtractRichTexts c) ++ extractChildren parent rest := by
  rw [extractChildren]

/-! ### Blocks, block builders and materialisation -/

/-- Outcome of running a Go function that may `panic`: a normal return or a
panic carrying its message.  (The Go conversion functions have no error
return channel; an unsupported input aborts by panicking.) -/
inductive GoResult (α : Type) where
  | ok (value : α)
  | panicked (message : String)
deriving DecidableEq, Repr

def GoResult.map {α β : Type} (f : α → β) : GoResult α → GoResult β
  | .ok a => .ok (f a)
  | .panicked m => .panicked m

def GoResult.bind {α β : Type} : GoResult α → (α → GoResult β) → GoResult β
  | .ok a, f => f a
  | .panicked m, _ => .panicked m

/-- A materialised Notion block (`nt.Block`), restricted to the variants and
fields this converter produces.  `children : Option (List NtBlock)` models
the Go `Children nt.Blocks` slice: `none` is a `nil` slice (the field is
absent downstream), `some []` an explicitly allocated empty list. -/
inductive NtBlock where
  | heading1 (richText : List NtRichText)
  | heading2 (richText : List NtRichText)
  | heading3 (richText : List NtRichText)
  | paragraph (richText : List NtRichText) (children : Option (List NtBlock))
  | quote (richText : List NtRichText) (children : Option (List NtBlock))
  | bulletedListItem (richText : List NtRichText) (children : Option (List NtBlock))
  | numberedListItem (richText : List NtRichText) (children : Option (List NtBlock))
  | toDo (checked : Bool) (richText : List NtRichText)
  | code (language : String) (richText : List NtRichText)
  | divider
  | image (url : String) (caption : List NtRichText)
  | table (tableWidth : Nat) (hasColumnHeader : Bool) (children : List NtBlock)
  | tableRow (cells : List (List NtRichText))

/-- Modelled from the spec (and pinned by this repository's test expecting
`#### Heading 4` to become a `Heading3Block`): the fork's
`nt.NewHeadingBlock` dispatches on the level — 1 and 2 keep their level,
everything else becomes a level-3 heading. -/
def NewHeadingBlock (richText : List NtRichText) (level : Nat) : NtBlock :=
  match level with
  | 1 => NtBlock.heading1 richText
  | 2 => NtBlock.heading2 richText
  | _ => NtBlock.heading3 richText

/-- `NtBlockBuilder` (`builder_block.go`), defunctionalised: each variant
records exactly the data the corresponding Go closure captures.  (The
embedded closures never use block-level `DecorateWith`, so no decorator
list is carried.) -/
inductive NtBlockBuilder where
  /-- `handleHeading`'s closure: level and extracted rich texts. -/
  | headingBuilder (level : Nat) (richTexts : NtRichTextBuilders)
  /-- The `KindCodeBlock`/`KindFencedCodeBlock` closure in `ToBlocks`. -/
  | codeBuilder (language : String) (richTexts : NtRichTextBuilders)
  /-- The `KindThematicBreak` closure in `ToBlocks`. -/
  | dividerBuilder
  /-- The `KindImage` closure in `ToBlocks`: destination URL and caption. -/
  | imageBuilder (url : String) (caption : NtRichTextBuilders)
  /-- `handleTable`'s closure: collected header cells and body rows. -/
  | tableBuilder (headers : List NtRichTextBuilders)
      (rows : List (List NtRichTextBuilders))
  /-- `handleHTMLBlock`'s closure (sanitises and filters at build time). -/
  | htmlParagraphBuilder (richTexts : NtRichTextBuilders)
  /-- The `KindParagraph` closure in `ToBlocks`: leading runs and child blocks. -/
  | paragraphBuilder (innerTexts : NtRichTextBuilders)
      (innerBlocks : List (Option NtBlockBuilder))
  /-- `handleBlockquote`'s closure: leading runs and child blocks. -/
  | quoteBuilder (innerTexts : NtRichTextBuilders)
      (innerBlocks : List (Option NtBlockBuilder))
  /-- The `KindTextBlock` closure in `ToBlocks` (a `Quote` with no children
  set). -/
  | textBlockQuoteBuilder (richTexts : NtRichTextBuilders)
  /-- `handleListItem`'s closure: marker flag, main content, child blocks. -/
  | listItemBuilder (bulleted : Bool) (mainContent : NtRichTextBuilders)
      (children : List (Option NtBlockBuilder))
  /-- `handleTaskItem`'s closure: checked state and label runs. -/
  | toDoBuilder (checked : Bool) (labels : NtRichTextBuilders)

/-- `NtBlockBuilders` is `[]*NtBlockBuilder`: elements may be `nil`. -/
abbrev NtBlockBuilders := List (Option NtBlockBuilder)

mutual

/-- `(*NtBlockBuilder).Build`: run the captured closure.  `none` models a
Go panic during materialisation (dereferencing a `nil` rich-text builder). -/
def NtBlockBuilder.Build : NtBlockBuilder → Option NtBlock
  | .headingBuilder level richTexts =>
      (richTexts.Build).map (fun rts => NewHeadingBlock rts level)
  | .codeBuilder language richTexts =>
      (richTexts.Build).map (fun rts => NtBlock.code language rts)
  | .dividerBuilder => some NtBlock.divider
  | .imageBuilder url caption =>
      (caption.Build).map (fun rts => NtBlock.image url rts)
  | .tableBuilder headers rows =>
      (headers.mapM NtRichTextBuilders.Build).bind fun headerCells =>
      (rows.mapM (fun (row : List NtRichTextBuilders) =>
          row.mapM NtRichTextBuilders.Build)).map fun bodyCells =>
        NtBlock.table headers.length true
          ((if headers.length > 0 then [NtBlock.tableRow headerCells] else []) ++
            bodyCells.map NtBlock.tableRow)
  | .htmlParagraphBuilder richTexts =>
      (richTexts.Build).map fun rts =>
        NtBlock.paragraph
          (rts.filterMap fun rt =>
            let cleaned := sanitizeMarkdownLintComments rt.content
            if cleaned = "" then Option.none
            else some { rt with content := cleaned })
          Option.none
  | .paragraphBuilder innerTexts innerBlocks =>
      (innerTexts.Build).bind fun rts =>
      (NtBlockBuilders.Build innerBlocks).map fun cs =>
        NtBlock.paragraph rts (some cs)
  | .quoteBuilder innerTexts innerBlocks =>
      (innerTexts.Build).bind fun rts =>
      (NtBlockBuilders.Build innerBlocks).map fun cs =>
        NtBlock.quote rts (some cs)
  | .textBlockQuoteBuilder richTexts =>
      (richTexts.Build).map fun rts => NtBlock.quote rts Option.none
  | .listItemBuilder bulleted mainContent children =>
      (mainContent.Build).bind fun rts =>
      (NtBlockBuilders.Build children).map fun cs =>
        (if bulleted then NtBlock.bulletedListItem rts (some cs)
         else NtBlock.numberedListItem rts (some cs))
  | .toDoBuilder checked labels =>
      (labels.Build).map fun rts => NtBlock.toDo checked rts

/-- `(NtBlockBuilders).Build` (`builder_block.go`): allocate an (explicitly
non-`nil`) result list and build every element in order.  Calling `Build`
on a `nil` builder pointer panics (`none` here); the Go-side filter of
`nil` built blocks never fires for the closures embedded above, which all
return non-`nil` blocks. -/
def NtBlockBuilders.Build : List (Option NtBlockBuilder) → Option (List NtBlock)
  | [] => some []
  | Option.none :: _ => Option.none
  | some b :: rest =>
      (NtBlockBuilder.Build b).bind fun blk =>
      (NtBlockBuilders.Build rest).map fun blks => blk :: blks

end

theorem MdNode.sizeOf_children_le (n : MdNode) : sizeOf n.children ≤ sizeOf n := by
  cases n <;> simp [MdNode.children] <;> omega

theorem natLexHelper {a a' b b' : Nat} (h : a < a' ∨ (a ≤ a' ∧ b < b')) :
    Prod.Lex (fun x y => x < y) (fun x y => x < y) (a, b) (a', b') := by
  rcases h with h | ⟨h1, h2⟩
  · exact Prod.Lex.left _ _ h
  · rcases Nat.lt_or_ge a a' with h3 | h3
    · exact Prod.Lex.left _ _ h3
    · have he : a = a' := Nat.le_antisymm h1 h3
      subst he
      exact Prod.Lex.right _ h2

/-- `handleTaskItem` (`jalapeno.go`): the node must have a `TaskCheckBox`
first child (otherwise a `nil` builder is returned); the checked state is
read off the checkbox, and the labels concatenate the extraction of every
rich-text-convertible sibling following it. -/
def handleTaskItem (node : MdNode) : Option NtBlockBuilder :=
  match node.firstChild with
  | Option.none => Option.none
  | some (.taskCheckbox isChecked) =>
      let labels := (node.children.drop 1).foldl
        (fun acc next =>
          if IsConvertableToRichText next then acc ++ ExtractRichTexts next
          else acc)
        ([] : NtRichTextBuilders)
      some (.toDoBuilder isChecked labels)
  | some _ => Option.none

/-- `handleHeading` (`jalapeno.go`): level straight off the node, runs from
`ExtractRichTexts`; `nt.NewHeadingBlock` is applied at build time.  (The
non-`Heading` branch is unreachable: the Go type assertion is only run on
heading nodes.) -/
def handleHeading (node : MdNode) : NtBlockBuilders :=
  match node with
  | .heading level linesText cs =>
      [some (.headingBuilder level (ExtractRichTexts (.heading level linesText cs)))]
  | _ => []

/-- The collection loop of `handleTable`: a `TableHeader` child contributes
one extracted cell per `th` to `headers`, a `TableRow` child contributes one
row of extracted cells, in document order. -/
def tableCollect :
    List MdNode → List NtRichTextBuilders × List (List NtRichTextBuilders)
  | [] => ([], [])
  | tr :: rest =>
      let (hs, rs) := tableCollect rest
      match tr with
      | .tableHeader ths => (ths.map ExtractRichTexts ++ hs, rs)
      | .tableRow tds => (hs, tds.map ExtractRichTexts :: rs)
      | _ => (hs, rs)

/-- `handleTable` (`jalapeno.go`): collect headers and rows from the
table's direct children, and defer block construction. -/
def handleTable (node : MdNode) : NtBlockBuilders :=
  match node with
  | .table trs =>
      let collected := tableCollect trs
      [some (.tableBuilder collected.1 collected.2)]
  | _ => []

/-- `handleHTMLBlock` (`jalapeno.go`): extract the rich texts now; the
markdownlint sanitisation and the empty-content filter run at build time. -/
def handleHTMLBlock (node : MdNode) : NtBlockBuilders :=
  [some (.htmlParagraphBuilder (ExtractRichTexts node))]

mutual

/-- `ToBlocks` (`jalapeno.go`): the per-kind block dispatcher.  The first
group handles pure flattening kinds; a remaining node without children
panics; the second group handles nesting kinds; anything else panics with
the node kind named in the message. -/
def ToBlocks (n : MdNode) : GoResult NtBlockBuilders :=
  match n with
  | .heading level linesText cs =>
      .ok (handleHeading (.heading level linesText cs))
  | .codeBlock linesText =>
      .ok [some (.codeBuilder "" (ExtractRichTexts (.codeBlock linesText)))]
  | .fencedCode language linesText =>
      .ok [some (.codeBuilder (sanitizeBlockLanguage language)
        (ExtractRichTexts (.fencedCode language linesText)))]
  | .thematicBreak => .ok [some .dividerBuilder]
  | .image destination cs =>
      .ok [some (.imageBuilder destination
        (match cs.head? with
         | some child => ExtractRichTexts child
         | Option.none => []))]
  | .table trs => .ok (handleTable (.table trs))
  | .htmlBlock linesText => .ok (handleHTMLBlock (.htmlBlock linesText))
  | .paragraph cs =>
      if cs.isEmpty then .panicked "Empty node on top-level ToBlocks call"
      else
        (pbFold cs [] []).map fun tb => [some (.paragraphBuilder tb.1 tb.2)]
  | .blockquote cs =>
      if cs.isEmpty then .panicked "Empty node on top-level ToBlocks call"
      else handleBlockquote cs
  | .list marker cs =>
      if cs.isEmpty then .panicked "Empty node on top-level ToBlocks call"
      else handleList (marker == '-' || marker == '+' || marker == '*') cs
  | .textBlock cs =>
      if cs.isEmpty then .panicked "Empty node on top-level ToBlocks call"
      else .ok [some (.textBlockQuoteBuilder (ExtractRichTexts (.textBlock cs)))]
  | n =>
      if n.children.isEmpty then .panicked "Empty node on top-level ToBlocks call"
      else .panicked ("unhandled node type: " ++ n.kindName)
termination_by (sizeOf n, 2)

/-- The shared child loop of the `KindParagraph` case of `ToBlocks` and of
`handleBlockquote`: a rich-text-convertible child joins the leading runs
only while no inner block has been produced yet; any other child (and every
child after the first inner block) is dispatched through `ToBlocks`. -/
def pbFold (cs : List MdNode) (innerTexts : NtRichTextBuilders)
    (innerBlocks : NtBlockBuilders) :
    GoResult (NtRichTextBuilders × NtBlockBuilders) :=
  match cs with
  | [] => .ok (innerTexts, innerBlocks)
  | child :: rest =>
      if IsConvertableToRichText child && innerBlocks.isEmpty then
        pbFold rest (innerTexts ++ ExtractRichTexts child) innerBlocks
      else
        match ToBlocks child with
        | .panicked m => .panicked m
        | .ok bs => pbFold rest innerTexts (innerBlocks ++ bs)
termination_by (sizeOf cs, 0)

/-- `handleBlockquote` (`jalapeno.go`): the same leading-runs/child-blocks
loop, wrapped in a `Quote` builder. -/
def handleBlockquote (cs : List MdNode) : GoResult NtBlockBuilders :=
  (pbFold cs [] []).map fun tb => [some (.quoteBuilder tb.1 tb.2)]
termination_by (sizeOf cs, 1)

/-- `handleList` (`jalapeno.go`): one `handleListItem` builder per child. -/
def handleList (bulleted : Bool) (cs : List MdNode) : GoResult NtBlockBuilders :=
  match cs with
  | [] => .ok []
  | child :: rest =>
      match handleListItem child bulleted with
      | .panicked m => .panicked m
      | .ok b => (handleList bulleted rest).map fun bs => b :: bs
termination_by (sizeOf cs, 1)

/-- `handleListItem` (`jalapeno.go`): main content from the first child
when it is rich-text-convertible; then scan the children (skipping the
first when main content was taken), redirecting to `handleTaskItem` as
soon as a `TextBlock` whose first child is a `TaskCheckBox` is found, and
dispatching everything else through `ToBlocks`. -/
def handleListItem (node : MdNode) (bulleted : Bool) :
    GoResult (Option NtBlockBuilder) :=
  let mainContent : NtRichTextBuilders :=
    match node.firstChild with
    | some child =>
        if IsConvertableToRichText child then ExtractRichTexts child else []
    | Option.none => []
  match liFold (!mainContent.isEmpty) node.children true [] with
  | .panicked m => .panicked m
  | .ok (.inr b) => .ok b
  | .ok (.inl children) =>
      .ok (some (.listItemBuilder bulleted mainContent children))
termination_by (sizeOf node, 1)
decreasing_by
  simp_wf
  apply natLexHelper
  right
  exact ⟨MdNode.sizeOf_children_le node, by omega⟩

/-- The child loop of `handleListItem`.  `skipMain` skips the first child
(already consumed as main content); a `TextBlock` child whose first child
is a `TaskCheckBox` returns early (`Sum.inr`) with `handleTaskItem`'s
builder; any other `TextBlock` child contributes nothing; other children
are dispatched through `ToBlocks` and accumulated. -/
def liFold (skipMain : Bool) (cs : List MdNode) (isFirst : Bool)
    (acc : NtBlockBuilders) :
    GoResult (Sum NtBlockBuilders (Option NtBlockBuilder)) :=
  match cs with
  | [] => .ok (.inl acc)
  | child :: rest =>
      if skipMain && isFirst then liFold skipMain rest false acc
      else
        match child with
        | .textBlock gcs =>
            match gcs.head? with
            | some (.taskCheckbox _) =>
                .ok (.inr (handleTaskItem (.textBlock gcs)))
            | _ => liFold skipMain rest false acc
        | other =>
            match ToBlocks other with
            | .panicked m => .panicked m
            | .ok bs => liFold skipMain rest false (acc ++ bs)
termination_by (sizeOf cs, 0)

end

/-- The title-search loop of `PrepareNotionPageProperties`: find the first
block whose type is `Heading1`; if found, return its rich text and the list
with exactly that block removed (order preserved); otherwise return the
list unchanged. -/
def extractTitle : List NtBlock → Option (List NtRichText) × List NtBlock
  | [] => (Option.none, [])
  | b :: rest =>
      match b with
      | .heading1 rts => (some rts, rest)
      | other =>
          let (t, bs) := extractTitle rest
          (t, other :: bs)

/-- `PrepareNotionPageProperties` (`jalapeno.go`): scan the materialised
block list for the first level-1 heading; its runs become the page title
and the block is deleted.  When the resulting title list is empty (no such
heading, or one with no runs) the fixed placeholder run is used.  Returns
the (possibly shortened) block list and the title run list (the Go
`nt.Properties` wrapper stores exactly this run list under the title
property). -/
def PrepareNotionPageProperties (blocks : List NtBlock) :
    List NtBlock × List NtRichText :=
  let found := extractTitle blocks
  let pageTitle := found.1.getD []
  if pageTitle.isEmpty then
    (found.2, [NewTextRichText "Unnamed Document"])
  else (found.2, pageTitle)


theorem MdNode.sizeOf_mem_children_lt {c n : MdNode} (h : c ∈ n.children) :
    sizeOf c < sizeOf n := by
  have h1 : sizeOf c < sizeOf n.children := List.sizeOf_lt_of_mem h
  have h2 : sizeOf n.children < sizeOf n :=
    MdNode.sizeOf_children_lt n (by intro he; rw [he] at h; cases h)
  exact Nat.lt_trans h1 h2

theorem decorateRichTexts_length (parent : MdNode) (l : NtRichTextBuilders) :
    (decorateRichTexts parent l).length = l.length := by
  cases parent <;> simp [decorateRichTexts]

theorem ExtractRichTexts_ne_nil (n : MdNode) : ExtractRichTexts n ≠ [] := by
  generalize hk : sizeOf n = k
  induction k using Nat.strong_induction_on generalizing n with
  | _ k ih =>
      subst hk
      match hc : n.children with
      | [] => rw [ExtractRichTexts_leaf hc]; simp
      | c :: rest =>
          rw [ExtractRichTexts_node (by simp [hc]), hc, extractChildren_cons]
          have hlt : sizeOf c < sizeOf n :=
            MdNode.sizeOf_mem_children_lt (by rw [hc]; exact List.mem_cons_self c rest)
          have hne : ExtractRichTexts c ≠ [] := ih (sizeOf c) hlt c rfl
          intro habs
          rcases List.append_eq_nil.mp habs with ⟨h1, _⟩
          have hlen := decorateRichTexts_length n (ExtractRichTexts c)
          rw [h1] at hlen
          simp at hlen
          exact hne (List.eq_nil_of_length_eq_zero hlen.symm)

/-- Sequential dispatch of a list of nodes through `ToBlocks`, concatenating
the produced builders (the suffix processing of the Paragraph/Blockquote
loop); the first panic aborts. -/
def toBlocksAll : List MdNode → GoResult NtBlockBuilders
  | [] => .ok []
  | c :: rest =>
      match ToBlocks c with
      | .panicked m => .panicked m
      | .ok bs => (toBlocksAll rest).map fun bs2 => bs ++ bs2

theorem handleList_ok_length {bulleted : Bool} {cs : List MdNode}
    {bs : NtBlockBuilders} (h : handleList bulleted cs = .ok bs) :
    bs.length = cs.length := by
  induction cs generalizing bs with
  | nil => simp only [handleList] at h; cases h; rfl
  | cons c rest ih =>
      simp only [handleList] at h
      cases hli : handleListItem c bulleted with
      | panicked m => rw [hli] at h; cases h
      | ok b =>
          rw [hli] at h
          cases hrest : handleList bulleted rest with
          | panicked m => rw [hrest] at h; simp [GoResult.map] at h
          | ok bs2 =>
              rw [hrest] at h
              simp only [GoResult.map] at h
              cases h
              simp [ih hrest]

theorem ToBlocks_ok_ne_nil {n : MdNode} {bs : NtBlockBuilders}
    (h : ToBlocks n = .ok bs) : bs ≠ [] := by
  cases n with
  | heading level linesText cs =>
      simp only [ToBlocks, handleHeading] at h; cases h; simp
  | codeBlock linesText => simp only [ToBlocks] at h; cases h; simp
  | fencedCode language linesText => simp only [ToBlocks] at h; cases h; simp
  | thematicBreak => simp only [ToBlocks] at h; cases h; simp
  | image destination cs => simp only [ToBlocks] at h; cases h; simp
  | table trs => simp only [ToBlocks, handleTable] at h; cases h; simp
  | htmlBlock linesText =>
      simp only [ToBlocks, handleHTMLBlock] at h; cases h; simp
  | paragraph cs =>
      simp only [ToBlocks] at h
      split at h
      · cases h
      · cases hp : pbFold cs [] [] with
        | panicked m => rw [hp] at h; simp [GoResult.map] at h
        | ok tb => rw [hp] at h; simp only [GoResult.map] at h; cases h; simp
  | blockquote cs =>
      simp only [ToBlocks] at h
      split at h
      · cases h
      · simp only [handleBlockquote] at h
        cases hp : pbFold cs [] [] with
        | panicked m => rw [hp] at h; simp [GoResult.map] at h
        | ok tb => rw [hp] at h; simp only [GoResult.map] at h; cases h; simp
  | list marker cs =>
      simp only [ToBlocks] at h
      split at h
      · cases h
      · next hne =>
          have hlen := handleList_ok_length h
          intro habs
          rw [habs] at hlen
          simp at hlen
          exact hne (by simp [List.eq_nil_of_length_eq_zero hlen.symm])
  | textBlock cs =>
      simp only [ToBlocks] at h
      split at h
      · cases h
      · cases h; simp
  | text v => simp only [ToBlocks] at h; split at h <;> cases h
  | emphasis level cs => simp only [ToBlocks] at h; split at h <;> cases h
  | strikethrough cs => simp only [ToBlocks] at h; split at h <;> cases h
  | codeSpan cs => simp only [ToBlocks] at h; split at h <;> cases h
  | link destination cs => simp only [ToBlocks] at h; split at h <;> cases h
  | autoLink label url => simp only [ToBlocks] at h; split at h <;> cases h
  | rawHTML segmentText => simp only [ToBlocks] at h; split at h <;> cases h
  | listItem cs => simp only [ToBlocks] at h; split at h <;> cases h
  | taskCheckbox isChecked => simp only [ToBlocks] at h; split at h <;> cases h
  | tableHeader cs => simp only [ToBlocks] at h; split at h <;> cases h
  | tableRow cs => simp only [ToBlocks] at h; split at h <;> cases h
  | tableCell cs => simp only [ToBlocks] at h; split at h <;> cases h
  | unsupported kindName cs => simp only [ToBlocks] at h; split at h <;> cases h

theorem pbFold_blocks_ne_nil {cs : List MdNode} {ts : NtRichTextBuilders}
    {bs : NtBlockBuilders} (hbs : bs ≠ []) :
    pbFold cs ts bs = (toBlocksAll cs).map fun bs2 => (ts, bs ++ bs2) := by
  induction cs generalizing bs with
  | nil => simp [pbFold, toBlocksAll, GoResult.map]
  | cons c rest ih =>
      simp only [pbFold, toBlocksAll]
      have hcond : (IsConvertableToRichText c && bs.isEmpty) = false := by
        cases bs with
        | nil => exact absurd rfl hbs
        | cons x xs => simp
      rw [hcond]
      simp only [Bool.false_eq_true, if_false]
      cases htb : ToBlocks c with
      | panicked m => simp [GoResult.map]
      | ok bs1 =>
          dsimp only
          rw [ih (show bs ++ bs1 ≠ [] by simp [hbs])]
          cases toBlocksAll rest <;> simp [GoResult.map, List.append_assoc]

theorem pbFold_split (cs : List MdNode) (ts : NtRichTextBuilders) :
    pbFold cs ts [] =
      (toBlocksAll (cs.dropWhile IsConvertableToRichText)).map
        fun bs2 =>
          (ts ++ ((cs.takeWhile IsConvertableToRichText).map ExtractRichTexts).join,
            bs2) := by
  induction cs generalizing ts with
  | nil => simp [pbFold, toBlocksAll, GoResult.map]
  | cons c rest ih =>
      by_cases hc : IsConvertableToRichText c
      · simp only [pbFold, hc, Bool.true_and, List.isEmpty_nil, if_true]
        rw [ih (ts ++ ExtractRichTexts c)]
        simp [List.takeWhile_cons, List.dropWhile_cons, hc, List.append_assoc]
      · simp only [pbFold]
        rw [if_neg (by simp [hc])]
        cases htb : ToBlocks c with
        | panicked m =>
            simp [List.dropWhile_cons, hc, toBlocksAll, htb, GoResult.map]
        | ok bs1 =>
            have hne1 := ToBlocks_ok_ne_nil htb
            dsimp only
            rw [pbFold_blocks_ne_nil (show [] ++ bs1 ≠ [] by simp [hne1])]
            simp only [List.dropWhile_cons, List.takeWhile_cons, hc,
              if_false, toBlocksAll, htb]
            cases toBlocksAll rest <;> simp [GoResult.map]

theorem GoResult.map_map {α β γ : Type} (f : β → γ) (g : α → β) (x : GoResult α) :
    GoResult.map f (GoResult.map g x) = GoResult.map (fun a => f (g a)) x := by
  cases x <;> rfl

/-- Dispatch a node and materialise the produced builders: the panic-or-ok
outcome of `ToBlocks`, then `NtBlockBuilders.Build` (`none` inside = panic
during materialisation). -/
def buildToBlocks (n : MdNode) : GoResult (Option (List NtBlock)) :=
  (ToBlocks n).map NtBlockBuilders.Build

/-- The level a produced heading block carries (`none` for non-headings). -/
def headingBlockLevel : NtBlock → Option Nat
  | .heading1 _ => some 1
  | .heading2 _ => some 2
  | .heading3 _ => some 3
  | _ => Option.none

/-- **C5 counterexample.**  The claim says that a node kind with no block
or rich-text mapping makes the conversion abort with a *descriptive error
value* and that *no panic crosses the public API*.  In the code `ToBlocks`
has no error return channel at all: reaching the dispatcher with an
unmapped kind (here a bare `TableRow`) panics with the kind named in the
panic message, and `ParseBlocks` installs no `recover`, so the panic is
what crosses the public API. -/
theorem c5_unsupported_counterexample :
    ToBlocks (.tableRow [.text "a"]) =
      .panicked "unhandled node type: TableRow" := by
  simp [ToBlocks, MdNode.children, MdNode.kindName]

/-- **C5 (amended).**  When the block dispatcher is reached with a node
kind that has no block or rich-text mapping and at least one child, the
whole conversion aborts via a Go panic whose message names the unsupported
node kind; the result is a panic, not an error value, and it propagates
through the public API. -/
theorem c5_unsupported_kind_panics (kindName : String) (cs : List MdNode)
    (h : cs ≠ []) :
    ToBlocks (.unsupported kindName cs) =
      .panicked ("unhandled node type: " ++ kindName) := by
  simp only [ToBlocks]
  rw [if_neg (by simp [MdNode.children, h])]
  simp [MdNode.kindName]

theorem c5_unsupported_kind_panics_witness :
    ([MdNode.text "x"] ≠ ([] : List MdNode)) ∧
      ToBlocks (.unsupported "CustomNode" [.text "x"]) =
        .panicked "unhandled node type: CustomNode" :=
  ⟨by simp, c5_unsupported_kind_panics "CustomNode" [.text "x"] (by simp)⟩

/-- **C9 counterexample.**  The claim says `sanitize(s) = s` for every
input other than the line-break tag; but `html2notion` lowercases (and
trims) first, so `"Hello"` comes back as `"hello"`. -/
theorem c9_sanitize_counterexample :
    html2notion "Hello" = "hello" ∧ html2notion "Hello" ≠ "Hello" := by
  constructor <;> decide

/-- **C9 (amended).**  `html2notion` first trims surrounding whitespace and
lowercases; if the result is the line-break tag `<br>` it returns a single
newline, otherwise it returns the trimmed, lowercased text.  In particular
an input that is already trimmed and lowercase and is not the tag passes
through unchanged. -/
theorem c9_sanitize_trims_and_lowercases (s : String) :
    (toLowerStr (trimSpace s) = "<br>" → html2notion s = "\n") ∧
    (toLowerStr (trimSpace s) ≠ "<br>" →
      html2notion s = toLowerStr (trimSpace s)) ∧
    (trimSpace s = s → toLowerStr s = s → s ≠ "<br>" → html2notion s = s) := by
  refine ⟨fun h => ?_, fun h => ?_, fun h1 h2 h3 => ?_⟩
  · simp [html2notion, h]
  · simp [html2notion, h]
  · simp [html2notion, h1, h2, h3]

theorem c9_sanitize_trims_and_lowercases_witness :
    (toLowerStr (trimSpace " <BR> ") = "<br>" ∧ html2notion " <BR> " = "\n") ∧
    (toLowerStr (trimSpace "abc") ≠ "<br>" ∧ trimSpace "abc" = "abc" ∧
      toLowerStr "abc" = "abc" ∧ "abc" ≠ "<br>" ∧ html2notion "abc" = "abc") :=
  ⟨⟨by decide, (c9_sanitize_trims_and_lowercases " <BR> ").1 (by decide)⟩,
   ⟨by decide, by decide, by decide, by decide,
    (c9_sanitize_trims_and_lowercases "abc").2.2 (by decide) (by decide)
      (by decide)⟩⟩

/-- **C3.**  For every Heading node the per-kind dispatch captures the
source level and the flattened rich texts; `nt.NewHeadingBlock` is applied
at build time, and it clamps: source levels 1–3 pass through unchanged and
levels 4–6 always yield a level-3 heading block. -/
theorem c3_heading_level_clamped (level : Nat) (linesText : String)
    (cs : List MdNode) :
    ToBlocks (.heading level linesText cs) =
      .ok [some (.headingBuilder level
        (ExtractRichTexts (.heading level linesText cs)))] ∧
    (∀ richTexts : NtRichTextBuilders,
      NtBlockBuilder.Build (.headingBuilder level richTexts) =
        (richTexts.Build).map (fun rts => NewHeadingBlock rts level)) ∧
    (∀ rts : List NtRichText,
      (1 ≤ level ∧ level ≤ 3 →
        headingBlockLevel (NewHeadingBlock rts level) = some level) ∧
      (4 ≤ level ∧ level ≤ 6 →
        headingBlockLevel (NewHeadingBlock rts level) = some 3)) := by
  refine ⟨?_, fun richTexts => ?_,
    fun rts => ⟨fun ⟨h1, h2⟩ => ?_, fun ⟨h1, h2⟩ => ?_⟩⟩
  · simp [ToBlocks, handleHeading]
  · simp [NtBlockBuilder.Build]
  · interval_cases level <;> simp [NewHeadingBlock, headingBlockLevel]
  · interval_cases level <;> simp [NewHeadingBlock, headingBlockLevel]

theorem c3_heading_level_clamped_witness :
    ((4 ≤ 5 ∧ 5 ≤ 6) ∧ headingBlockLevel (NewHeadingBlock [] 5) = some 3) ∧
    ((1 ≤ 2 ∧ 2 ≤ 3) ∧ headingBlockLevel (NewHeadingBlock [] 2) = some 2) :=
  ⟨⟨⟨by decide, by decide⟩,
    ((c3_heading_level_clamped 5 "t" []).2.2 []).2 ⟨by decide, by decide⟩⟩,
   ⟨⟨by decide, by decide⟩,
    ((c3_heading_level_clamped 2 "t" []).2.2 []).1 ⟨by decide, by decide⟩⟩⟩

/-- `block.GetType() == nt.BlockTypeHeading1`. -/
def isHeading1 : NtBlock → Bool
  | .heading1 _ => true
  | _ => false

theorem extractTitle_no_heading {bs : List NtBlock}
    (h : ∀ b ∈ bs, isHeading1 b = false) :
    extractTitle bs = (Option.none, bs) := by
  induction bs with
  | nil => rfl
  | cons b rest ih =>
      cases b with
      | heading1 rts => exact absurd (h _ (List.mem_cons_self _ _)) (by simp [isHeading1])
      | _ =>
          simp only [extractTitle]
          rw [ih (fun x hx => h x (List.mem_cons_of_mem _ hx))]
  
theorem extractTitle_found {pre : List NtBlock} (post : List NtBlock)
    (rts : List NtRichText) (h : ∀ b ∈ pre, isHeading1 b = false) :
    extractTitle (pre ++ .heading1 rts :: post) = (some rts, pre ++ post) := by
  induction pre with
  | nil => simp [extractTitle]
  | cons b rest ih =>
      cases b with
      | heading1 rts2 =>
          exact absurd (h _ (List.mem_cons_self _ _)) (by simp [isHeading1])
      | _ =>
          simp only [List.cons_append, extractTitle, List.append_eq]
          rw [ih (fun x hx => h x (List.mem_cons_of_mem _ hx))]

/-- **C6 counterexample.**  The claim says that when a level-1 heading
block is found, *that block's runs become the document title*.  For a
first level-1 heading whose run list is empty, the block is removed but
the returned title is the placeholder run, not the heading's (empty) run
list. -/
theorem c6_page_title_counterexample :
    PrepareNotionPageProperties [NtBlock.heading1 []] =
      ([], [NewTextRichText "Unnamed Document"]) ∧
    ([NewTextRichText "Unnamed Document"] : List NtRichText) ≠ [] := by
  constructor
  · simp [PrepareNotionPageProperties, extractTitle]
  · simp

/-- **C6 (amended).**  The page assembler scans for the first level-1
heading block.  If one is found, it is removed from the list (first match
only, order preserved) and its runs become the title *when they are
non-empty*; a found heading with empty runs is still removed, but the
title falls back to the fixed placeholder.  If no level-1 heading exists,
the title is the placeholder and the block list is unchanged. -/
theorem c6_page_title_extraction (pre post : List NtBlock)
    (rts : List NtRichText) (hpre : ∀ b ∈ pre, isHeading1 b = false) :
    (rts ≠ [] →
      PrepareNotionPageProperties (pre ++ .heading1 rts :: post) =
        (pre ++ post, rts)) ∧
    (rts = [] →
      PrepareNotionPageProperties (pre ++ .heading1 rts :: post) =
        (pre ++ post, [NewTextRichText "Unnamed Document"])) ∧
    PrepareNotionPageProperties pre =
      (pre, [NewTextRichText "Unnamed Document"]) := by
  refine ⟨fun hne => ?_, fun hnil => ?_, ?_⟩
  · simp only [PrepareNotionPageProperties, extractTitle_found post rts hpre]
    simp [hne]
  · subst hnil
    simp only [PrepareNotionPageProperties, extractTitle_found post [] hpre]
    simp
  · simp only [PrepareNotionPageProperties, extractTitle_no_heading hpre]
    simp

theorem c6_page_title_extraction_witness :
    ((∀ b ∈ [NtBlock.divider], isHeading1 b = false) ∧
      PrepareNotionPageProperties
          [NtBlock.divider, NtBlock.heading1 [NewTextRichText "T"], NtBlock.divider] =
        ([NtBlock.divider, NtBlock.divider], [NewTextRichText "T"])) := by
  refine ⟨by simp [isHeading1], ?_⟩
  have h := (c6_page_title_extraction [NtBlock.divider] [NtBlock.divider]
    [NewTextRichText "T"] (by simp [isHeading1])).1 (by simp)
  simpa using h

/-- **C10.**  If the first level-1 heading block in the materialised list
has an empty rich-text list, the page assembler still removes that block,
but the returned title is the fixed placeholder run rather than the empty
run list: the placeholder fallback fires whenever the extracted title list
is empty, not only when no level-1 heading exists. -/
theorem c10_empty_heading_title_placeholder (pre post : List NtBlock)
    (hpre : ∀ b ∈ pre, isHeading1 b = false) :
    PrepareNotionPageProperties (pre ++ .heading1 [] :: post) =
      (pre ++ post, [NewTextRichText "Unnamed Document"]) := by
  simp only [PrepareNotionPageProperties, extractTitle_found post [] hpre]
  simp

theorem c10_empty_heading_title_placeholder_witness :
    (∀ b ∈ [NtBlock.divider], isHeading1 b = false) ∧
      PrepareNotionPageProperties
          [NtBlock.divider, NtBlock.heading1 [], NtBlock.paragraph [] (some [])] =
        ([NtBlock.divider, NtBlock.paragraph [] (some [])],
          [NewTextRichText "Unnamed Document"]) :=
  by
  refine ⟨by simp [isHeading1], ?_⟩
  have h := c10_empty_heading_title_placeholder [NtBlock.divider]
    [NtBlock.paragraph [] (some [])] (by simp [isHeading1])
  simpa using h

theorem tableCollect_spec (trs : List MdNode) :
    (tableCollect trs).1 =
      (trs.filterMap fun tr =>
        match tr with
        | .tableHeader ths => some (ths.map ExtractRichTexts)
        | _ => Option.none).join ∧
    (tableCollect trs).2 =
      trs.filterMap fun tr =>
        match tr with
        | .tableRow tds => some (tds.map ExtractRichTexts)
        | _ => Option.none := by
  induction trs with
  | nil => simp [tableCollect]
  | cons tr rest ih =>
      cases tr <;> simp [tableCollect, List.filterMap_cons, ih.1, ih.2]

/-- The `HasColumnHeader` flag a produced table block carries. -/
def tableHeaderFlag : NtBlock → Option Bool
  | .table _ hasColumnHeader _ => some hasColumnHeader
  | _ => Option.none

/-- The `TableWidth` a produced table block carries. -/
def tableWidthOf : NtBlock → Option Nat
  | .table tableWidth _ _ => some tableWidth
  | _ => Option.none

/-- **C4 counterexample.**  The claim says `hasHeader` is true *iff* at
least one header row existed, so a table with zero header rows should have
`hasHeader = false`.  The code sets `HasColumnHeader: true` unconditionally:
a table whose only child is a body row still materialises with
`HasColumnHeader = true` (its width is 0 as claimed). -/
theorem c4_table_counterexample :
    buildToBlocks (.table [.tableRow [.tableCell [.text "a"]]]) =
      .ok (some [NtBlock.table 0 true [NtBlock.tableRow [[NewTextRichText "a"]]]]) ∧
    tableHeaderFlag (NtBlock.table 0 true [NtBlock.tableRow [[NewTextRichText "a"]]]) =
      some true ∧
    tableWidthOf (NtBlock.table 0 true [NtBlock.tableRow [[NewTextRichText "a"]]]) =
      some 0 := by
  refine ⟨?_, rfl, rfl⟩
  simp [buildToBlocks, ToBlocks, handleTable, tableCollect, GoResult.map,
    NtBlockBuilders.Build, NtBlockBuilder.Build,
    ExtractRichTexts_node (n := MdNode.tableCell [.text "a"]) (by simp [MdNode.children]),
    MdNode.children, extractChildren_cons, extractChildren_nil,
    ExtractRichTexts_leaf (n := MdNode.text "a") rfl,
    decorateRichTexts, ToRichText, NtRichTextBuilders.Build,
    NtRichTextBuilder.Build, NewNtRichTextBuilder,
    List.mapM, List.mapM.loop]

/-- **C4 (amended).**  For every Table node, the produced table block's
width equals the number of header cells collected from header-row children,
the header row (when present) is materialised first followed by body rows
in original order — but `hasHeader` (`HasColumnHeader`) is set to `true`
unconditionally, even for a table with zero header rows (whose width is 0). -/
theorem c4_table_width_rows_header (trs : List MdNode) :
    ToBlocks (.table trs) =
      .ok [some (.tableBuilder (tableCollect trs).1 (tableCollect trs).2)] ∧
    (tableCollect trs).1 =
      (trs.filterMap fun tr =>
        match tr with
        | .tableHeader ths => some (ths.map ExtractRichTexts)
        | _ => Option.none).join ∧
    (tableCollect trs).2 =
      (trs.filterMap fun tr =>
        match tr with
        | .tableRow tds => some (tds.map ExtractRichTexts)
        | _ => Option.none) ∧
    (∀ (headers : List NtRichTextBuilders) (rows : List (List NtRichTextBuilders))
        (headerCells : List (List NtRichText))
        (bodyCells : List (List (List NtRichText))),
      headers.mapM NtRichTextBuilders.Build = some headerCells →
      rows.mapM (fun (row : List NtRichTextBuilders) =>
        row.mapM NtRichTextBuilders.Build) = some bodyCells →
      NtBlockBuilder.Build (.tableBuilder headers rows) =
        some (NtBlock.table headers.length true
          ((if headers.length > 0 then [NtBlock.tableRow headerCells] else []) ++
            bodyCells.map NtBlock.tableRow))) := by
  refine ⟨?_, (tableCollect_spec trs).1, (tableCollect_spec trs).2,
    fun headers rows headerCells bodyCells h1 h2 => ?_⟩
  · simp [ToBlocks, handleTable]
  · have h1' := h1
    have h2' := h2
    simp only [List.mapM] at h1' h2'
    simp [NtBlockBuilder.Build, h1', h2']

theorem c4_table_width_rows_header_witness :
    ([([some (NewNtRichTextBuilder (NewTextRichText "h"))] : NtRichTextBuilders)].mapM
        NtRichTextBuilders.Build = some [[NewTextRichText "h"]]) ∧
    (([] : List (List NtRichTextBuilders)).mapM
        (fun (row : List NtRichTextBuilders) =>
          row.mapM NtRichTextBuilders.Build) = some []) ∧
    NtBlockBuilder.Build
        (.tableBuilder [[some (NewNtRichTextBuilder (NewTextRichText "h"))]] []) =
      some (NtBlock.table 1 true [NtBlock.tableRow [[NewTextRichText "h"]]]) := by
  have h1 : ([([some (NewNtRichTextBuilder (NewTextRichText "h"))] :
      NtRichTextBuilders)].mapM NtRichTextBuilders.Build) =
      some [[NewTextRichText "h"]] := by
    simp [NtRichTextBuilders.Build, NtRichTextBuilder.Build, NewNtRichTextBuilder,
      List.mapM, List.mapM.loop]
  have h2 : (([] : List (List NtRichTextBuilders)).mapM
      (fun (row : List NtRichTextBuilders) =>
        row.mapM NtRichTextBuilders.Build)) = some ([] : List (List (List NtRichText))) := by
    simp [List.mapM, List.mapM.loop]
  refine ⟨h1, h2, ?_⟩
  have h := (c4_table_width_rows_header []).2.2.2
    [[some (NewNtRichTextBuilder (NewTextRichText "h"))]] []
    [[NewTextRichText "h"]] [] h1 h2
  simpa using h

theorem stripLint_nil : stripLint [] = [] := by
  rw [stripLint]
  split
  · next rest hm =>
      rw [show matchLintCommentAt [] = Option.none from by decide] at hm
      cases hm
  · rfl

theorem stripLint_cons_nomatch {c : Char} {cs : List Char}
    (h : matchLintCommentAt (c :: cs) = Option.none) :
    stripLint (c :: cs) = c :: stripLint cs := by
  rw [stripLint]
  split
  · next rest hm => rw [h] at hm; cases hm
  · rfl

/-- The Go `Children nt.Blocks` slice of a block kind that supports
nesting (`none` for kinds without a children field): `some none` means the
field is a `nil` slice, `some (some cs)` an explicitly present list. -/
def blockChildrenField : NtBlock → Option (Option (List NtBlock))
  | .paragraph _ children => some children
  | .quote _ children => some children
  | .bulletedListItem _ children => some children
  | .numberedListItem _ children => some children
  | _ => Option.none

/-- **C8 counterexample.**  The claim says the `children` field of every
produced nesting-capable block — "in particular every Paragraph block the
converter emits" — is an explicit (possibly empty) list, never `nil`.  The
Paragraph built by `handleHTMLBlock` sets only `RichText`, leaving
`Children` as the `nil` slice (the repository's own HTML-block test
expects `Children: nil`). -/
theorem c8_children_counterexample :
    buildToBlocks (.htmlBlock "x") =
      .ok (some [NtBlock.paragraph [NewTextRichText "x"] Option.none]) ∧
    blockChildrenField (NtBlock.paragraph [NewTextRichText "x"] Option.none) =
      some Option.none := by
  have hx : sanitizeMarkdownLintComments "x" = "x" := by
    unfold sanitizeMarkdownLintComments
    rw [show ("x".data) = ['x'] from rfl,
      stripLint_cons_nomatch (by decide), stripLint_nil]
    decide
  refine ⟨?_, rfl⟩
  simp [buildToBlocks, ToBlocks, handleHTMLBlock, GoResult.map,
    NtBlockBuilders.Build, NtBlockBuilder.Build,
    ExtractRichTexts_leaf (n := MdNode.htmlBlock "x") rfl,
    ToRichText, NtRichTextBuilders.Build, NtRichTextBuilder.Build,
    NewNtRichTextBuilder, List.mapM, List.mapM.loop, hx,
    show html2notion (contentFromLines "x") = "x" from by decide,
    List.filterMap_cons, NewTextRichText,
    show ("x" : String) ≠ "" from by decide]

theorem isEmpty_false_of_ne_nil {α : Type} {l : List α} (h : l ≠ []) :
    l.isEmpty = false := by
  cases l with
  | nil => exact absurd rfl h
  | cons x xs => rfl

theorem handleListItem_single_convertible {c : MdNode}
    (hc : IsConvertableToRichText c = true) (b : Bool) :
    handleListItem (.listItem [c]) b =
      .ok (some (.listItemBuilder b (ExtractRichTexts c) [])) := by
  have hne' : (ExtractRichTexts c).isEmpty = false :=
    isEmpty_false_of_ne_nil (ExtractRichTexts_ne_nil c)
  have hlf : liFold true [c] true [] = .ok (.inl ([] : NtBlockBuilders)) := by
    rw [liFold.eq_def]
    simp only [Bool.and_self, if_true]
    rw [liFold.eq_def]
  simp only [handleListItem, MdNode.firstChild, MdNode.children, List.head?,
    hc, if_true, hne', Bool.not_false, hlf]

/-- **C8 (amended).**  A flat bulleted list of N items with no nested
content produces exactly N `BulletedListItem` builders, and every list-item
block, every Paragraph block from the Paragraph dispatcher and every Quote
block from the Blockquote dispatcher materialises with `children` present
as an explicit (possibly empty) list.  The exceptions — forced by the
counterexample — are the Paragraph emitted by `handleHTMLBlock` and the
Quote emitted for a bare `TextBlock`, which leave `children` as the `nil`
slice. -/
theorem c8_children_always_present (bulleted : Bool)
    (itemChildren : List MdNode)
    (hconv : ∀ c ∈ itemChildren, IsConvertableToRichText c = true) :
    handleList bulleted (itemChildren.map (fun c => .listItem [c])) =
      .ok (itemChildren.map fun c =>
        some (.listItemBuilder bulleted (ExtractRichTexts c) [])) ∧
    (itemChildren ≠ [] →
      ToBlocks (.list '-' (itemChildren.map (fun c => .listItem [c]))) =
        .ok (itemChildren.map fun c =>
          some (.listItemBuilder true (ExtractRichTexts c) []))) ∧
    (∀ (b : Bool) (mc : NtRichTextBuilders),
      NtBlockBuilder.Build (.listItemBuilder b mc []) =
        (mc.Build).map fun rts =>
          if b then NtBlock.bulletedListItem rts (some [])
          else NtBlock.numberedListItem rts (some [])) ∧
    (∀ (b : Bool) (mc : NtRichTextBuilders) (children : NtBlockBuilders)
        (blk : NtBlock),
      NtBlockBuilder.Build (.listItemBuilder b mc children) = some blk →
      ∃ rts cs, blockChildrenField blk = some (some cs) ∧
        (blk = NtBlock.bulletedListItem rts (some cs) ∨
          blk = NtBlock.numberedListItem rts (some cs))) ∧
    (∀ (ts : NtRichTextBuilders) (bs : NtBlockBuilders) (blk : NtBlock),
      NtBlockBuilder.Build (.paragraphBuilder ts bs) = some blk →
      ∃ rts cs, blk = NtBlock.paragraph rts (some cs)) ∧
    (∀ (ts : NtRichTextBuilders) (bs : NtBlockBuilders) (blk : NtBlock),
      NtBlockBuilder.Build (.quoteBuilder ts bs) = some blk →
      ∃ rts cs, blk = NtBlock.quote rts (some cs)) := by
  have hfirst : ∀ (l : List MdNode), (∀ c ∈ l, IsConvertableToRichText c = true) →
      handleList bulleted (l.map (fun c => .listItem [c])) =
        .ok (l.map fun c =>
          some (.listItemBuilder bulleted (ExtractRichTexts c) [])) := by
    intro l hl
    induction l with
    | nil => simp [handleList]
    | cons c rest ih =>
        simp only [List.map_cons, handleList,
          handleListItem_single_convertible (hl c (List.mem_cons_self c rest)) bulleted]
        rw [ih (fun x hx => hl x (List.mem_cons_of_mem _ hx))]
        simp [GoResult.map]
  refine ⟨hfirst itemChildren hconv, fun hne => ?_, fun b mc => ?_,
    fun b mc children blk hb => ?_, fun ts bs blk hb => ?_,
    fun ts bs blk hb => ?_⟩
  · have h2 : ∀ (l : List MdNode), (∀ c ∈ l, IsConvertableToRichText c = true) →
        handleList true (l.map (fun c => .listItem [c])) =
          .ok (l.map fun c =>
            some (.listItemBuilder true (ExtractRichTexts c) [])) := by
      intro l hl
      induction l with
      | nil => simp [handleList]
      | cons c rest ih =>
          simp only [List.map_cons, handleList,
            handleListItem_single_convertible (hl c (List.mem_cons_self c rest)) true]
          rw [ih (fun x hx => hl x (List.mem_cons_of_mem _ hx))]
          simp [GoResult.map]
    simp only [ToBlocks]
    rw [if_neg (by simp [hne]),
      show ('-' == '-' || '-' == '+' || '-' == '*') = true from by decide,
      h2 itemChildren hconv]
  · cases hmc : NtRichTextBuilders.Build mc with
    | none => simp [NtBlockBuilder.Build, hmc, NtBlockBuilders.Build, GoResult.map]
    | some rts =>
        cases b <;>
          simp [NtBlockBuilder.Build, hmc, NtBlockBuilders.Build, GoResult.map]
  · rw [NtBlockBuilder.Build] at hb
    cases hmc : NtRichTextBuilders.Build mc with
    | none => rw [hmc] at hb; cases hb
    | some rts =>
        rw [hmc] at hb
        cases hch : NtBlockBuilders.Build children with
        | none => rw [hch] at hb; cases hb
        | some cs =>
            rw [hch] at hb
            simp only [Option.some_bind', Option.map_some'] at hb
            cases b with
            | false =>
                rw [if_neg (by simp)] at hb
                cases hb
                exact ⟨rts, cs, rfl, Or.inr rfl⟩
            | true =>
                rw [if_pos rfl] at hb
                cases hb
                exact ⟨rts, cs, rfl, Or.inl rfl⟩
  · rw [NtBlockBuilder.Build] at hb
    cases hts : NtRichTextBuilders.Build ts with
    | none => rw [hts] at hb; cases hb
    | some rts =>
        rw [hts] at hb
        cases hbs : NtBlockBuilders.Build bs with
        | none => rw [hbs] at hb; cases hb
        | some cs =>
            rw [hbs] at hb
            simp only [Option.some_bind', Option.map_some'] at hb
            cases hb
            exact ⟨rts, cs, rfl⟩
  · rw [NtBlockBuilder.Build] at hb
    cases hts : NtRichTextBuilders.Build ts with
    | none => rw [hts] at hb; cases hb
    | some rts =>
        rw [hts] at hb
        cases hbs : NtBlockBuilders.Build bs with
        | none => rw [hbs] at hb; cases hb
        | some cs =>
            rw [hbs] at hb
            simp only [Option.some_bind', Option.map_some'] at hb
            cases hb
            exact ⟨rts, cs, rfl⟩

theorem c8_children_always_present_witness :
    (∀ c ∈ [MdNode.textBlock [.text "A"], MdNode.textBlock [.text "B"]],
      IsConvertableToRichText c = true) ∧
    ToBlocks (.list '-' [.listItem [.textBlock [.text "A"]],
        .listItem [.textBlock [.text "B"]]]) =
      .ok [some (.listItemBuilder true
          (ExtractRichTexts (.textBlock [.text "A"])) []),
        some (.listItemBuilder true
          (ExtractRichTexts (.textBlock [.text "B"])) [])] := by
  have hcv : ∀ c ∈ [MdNode.textBlock [.text "A"], MdNode.textBlock [.text "B"]],
      IsConvertableToRichText c = true := by
    intro c hc
    fin_cases hc <;> simp [IsConvertableToRichText]
  refine ⟨hcv, ?_⟩
  have h := (c8_children_always_present true
    [MdNode.textBlock [.text "A"], MdNode.textBlock [.text "B"]] hcv).2.1
    (by simp)
  simpa using h

/-- **C1.**  For a Paragraph or Blockquote node the child loop accumulates
rich-text-convertible children into the leading runs only while no
block-convertible child has been seen: the runs are exactly the extractions
of the maximal convertible prefix, and every child from the first
non-convertible one on — convertible or not — is dispatched through
`ToBlocks` and appended to the block's children, in order.  In particular a
blockquote whose first child is a heading yields a Quote builder with empty
runs whose first child is the heading's builder, and such a Quote
materialises with an empty run list. -/
theorem c1_leading_runs_split (cs : List MdNode) (hne : cs ≠ []) :
    (ToBlocks (.paragraph cs) =
      (toBlocksAll (cs.dropWhile IsConvertableToRichText)).map fun bs =>
        [some (.paragraphBuilder
          (((cs.takeWhile IsConvertableToRichText).map ExtractRichTexts).join)
          bs)]) ∧
    (ToBlocks (.blockquote cs) =
      (toBlocksAll (cs.dropWhile IsConvertableToRichText)).map fun bs =>
        [some (.quoteBuilder
          (((cs.takeWhile IsConvertableToRichText).map ExtractRichTexts).join)
          bs)]) ∧
    (∀ (level : Nat) (linesText : String) (hcs rest : List MdNode),
      cs = .heading level linesText hcs :: rest →
      ToBlocks (.blockquote cs) =
        (toBlocksAll rest).map fun bs =>
          [some (.quoteBuilder []
            (some (.headingBuilder level
              (ExtractRichTexts (.heading level linesText hcs))) :: bs))]) ∧
    (∀ innerBlocks : NtBlockBuilders,
      NtBlockBuilder.Build (.quoteBuilder [] innerBlocks) =
        (NtBlockBuilders.Build innerBlocks).map fun built =>
          NtBlock.quote [] (some built)) := by
  have hbq : ToBlocks (.blockquote cs) =
      (toBlocksAll (cs.dropWhile IsConvertableToRichText)).map fun bs =>
        [some (.quoteBuilder
          (((cs.takeWhile IsConvertableToRichText).map ExtractRichTexts).join)
          bs)] := by
    simp only [ToBlocks]
    rw [if_neg (by simp [hne]), handleBlockquote, pbFold_split cs []]
    rw [GoResult.map_map]
    cases toBlocksAll (cs.dropWhile IsConvertableToRichText) <;>
      simp [GoResult.map]
  refine ⟨?_, hbq, fun level linesText hcs rest hcseq => ?_, fun innerBlocks => ?_⟩
  · simp only [ToBlocks]
    rw [if_neg (by simp [hne]), pbFold_split cs []]
    rw [GoResult.map_map]
    cases toBlocksAll (cs.dropWhile IsConvertableToRichText) <;>
      simp [GoResult.map]
  · subst hcseq
    rw [hbq]
    have hnc : IsConvertableToRichText (.heading level linesText hcs) = false := by
      simp [IsConvertableToRichText]
    rw [List.dropWhile_cons, List.takeWhile_cons]
    simp only [hnc, Bool.false_eq_true, if_false]
    rw [show toBlocksAll (MdNode.heading level linesText hcs :: rest) =
        (toBlocksAll rest).map fun bs2 =>
          [some (.headingBuilder level
            (ExtractRichTexts (.heading level linesText hcs)))] ++ bs2 from by
      simp [toBlocksAll, ToBlocks, handleHeading]]
    rw [GoResult.map_map]
    cases toBlocksAll rest <;> simp [GoResult.map]
  · simp [NtBlockBuilder.Build, NtRichTextBuilders.Build, List.mapM, List.mapM.loop]

theorem c1_leading_runs_split_witness :
    ([MdNode.heading 1 "T" []] ≠ ([] : List MdNode)) ∧
    ToBlocks (.blockquote [.heading 1 "T" []]) =
      .ok [some (.quoteBuilder []
        [some (.headingBuilder 1 (ExtractRichTexts (.heading 1 "T" [])))])] := by
  refine ⟨by simp, ?_⟩
  have h := (c1_leading_runs_split [.heading 1 "T" []] (by simp)).2.2.1
    1 "T" [] [] rfl
  rw [h]
  simp [toBlocksAll, GoResult.map]

/-- A `TextBlock` whose first child is a `TaskCheckBox` — the shape that
redirects `handleListItem` to `handleTaskItem`. -/
def isTaskTextBlock : MdNode → Bool
  | .textBlock gcs =>
      match gcs.head? with
      | some (.taskCheckbox _) => true
      | _ => false
  | _ => false

/-- The ToDo label runs exactly as claim C2 words them: the concatenation
of `ExtractRichTexts` over *every* sibling node following the checkbox
(no convertibility filter).  For comparison against `handleTaskItem`. -/
def specTaskItemLabels (siblings : List MdNode) : NtRichTextBuilders :=
  (siblings.map ExtractRichTexts).join

theorem taskLabels_foldl (siblings : List MdNode) (init : NtRichTextBuilders) :
    siblings.foldl (fun acc next =>
      if IsConvertableToRichText next then acc ++ ExtractRichTexts next
      else acc) init =
    init ++ ((siblings.filter IsConvertableToRichText).map ExtractRichTexts).join := by
  induction siblings generalizing init with
  | nil => simp
  | cons c rest ih =>
      by_cases hc : IsConvertableToRichText c <;>
        simp [List.foldl_cons, hc, ih, List.append_assoc, List.filter_cons]

theorem handleTaskItem_eq (chk : Bool) (sibs : List MdNode) :
    handleTaskItem (.textBlock (.taskCheckbox chk :: sibs)) =
      some (.toDoBuilder chk
        (((sibs.filter IsConvertableToRichText).map ExtractRichTexts).join)) := by
  simp only [handleTaskItem, MdNode.firstChild, MdNode.children, List.head?,
    List.drop_succ_cons, List.drop_zero]
  rw [taskLabels_foldl]
  simp

theorem liFold_finds_task (chk : Bool) (sibs post : List MdNode) :
    ∀ (pre : List MdNode) (skipMain isFirst : Bool) (acc : NtBlockBuilders)
      (res : Sum NtBlockBuilders (Option NtBlockBuilder)),
      (∀ x ∈ pre, isTaskTextBlock x = false) →
      (skipMain = true → isFirst = true → pre ≠ []) →
      liFold skipMain (pre ++ .textBlock (.taskCheckbox chk :: sibs) :: post)
        isFirst acc = .ok res →
      res = .inr (handleTaskItem (.textBlock (.taskCheckbox chk :: sibs))) := by
  intro pre
  induction pre with
  | nil =>
      intro skipMain isFirst acc res _ hguard h
      have hsf : (skipMain && isFirst) = false := by
        cases skipMain with
        | false => rfl
        | true =>
            cases isFirst with
            | false => rfl
            | true => exact absurd rfl (hguard rfl rfl)
      rw [liFold.eq_def] at h
      simp only [List.nil_append, hsf, Bool.false_eq_true, if_false,
        List.head?] at h
      cases h
      rfl
  | cons p pre' ih =>
      intro skipMain isFirst acc res hpre hguard h
      rw [liFold.eq_def] at h
      simp only [List.cons_append] at h
      by_cases hsf : (skipMain && isFirst) = true
      · rw [if_pos hsf] at h
        exact ih skipMain false acc res
          (fun x hx => hpre x (List.mem_cons_of_mem _ hx))
          (by intro _ hcontra; cases hcontra) h
      · rw [if_neg hsf] at h
        split at h
        · next gcs =>
            have hft := hpre (.textBlock gcs) (List.mem_cons_self _ _)
            split at h
            · next b heq =>
                rw [isTaskTextBlock, heq] at hft
                cases hft
            · exact ih skipMain false acc res
                (fun x hx => hpre x (List.mem_cons_of_mem _ hx))
                (by intro _ hcontra; cases hcontra) h
        · next other hother =>
            cases htb : ToBlocks p with
            | panicked m => rw [htb] at h; cases h
            | ok bs =>
                rw [htb] at h
                exact ih skipMain false (acc ++ bs) res
                  (fun x hx => hpre x (List.mem_cons_of_mem _ hx))
                  (by intro _ hcontra; cases hcontra) h

/-- **C2 counterexample.**  The claim says the ToDo's runs are the
concatenation of the rich-text extraction of *every* sibling following the
checkbox.  `handleTaskItem` filters: only rich-text-convertible siblings
contribute.  For a checkbox followed by a text and an inline image, the
code's labels are just the text's run, while the claim's value would also
contain the image's (nil) extraction. -/
theorem c2_task_labels_counterexample :
    handleTaskItem (.textBlock [.taskCheckbox false, .text "A", .image "u" []]) =
      some (.toDoBuilder false
        [some (NewNtRichTextBuilder (NewTextRichText "A"))]) ∧
    specTaskItemLabels [.text "A", .image "u" []] =
      [some (NewNtRichTextBuilder (NewTextRichText "A")), Option.none] ∧
    ([some (NewNtRichTextBuilder (NewTextRichText "A"))] : NtRichTextBuilders) ≠
      [some (NewNtRichTextBuilder (NewTextRichText "A")), Option.none] := by
  refine ⟨?_, ?_, by simp⟩
  · rw [handleTaskItem_eq false [.text "A", .image "u" []]]
    simp [List.filter_cons, IsConvertableToRichText,
      ExtractRichTexts_leaf (n := MdNode.text "A") rfl, ToRichText]
  · simp [specTaskItemLabels,
      ExtractRichTexts_leaf (n := MdNode.text "A") rfl,
      ExtractRichTexts_leaf (n := MdNode.image "u" []) rfl, ToRichText]

/-- **C2 (amended).**  A list item containing a task checkbox as its
effective content (a `TextBlock` child whose first child is a
`TaskCheckBox`, the first such child in iteration order) is redirected to
`handleTaskItem` and — whenever item processing returns at all — produces
a ToDo builder and never a list-item builder, with the checked state read
off the checkbox; the label runs concatenate the extraction of every
*rich-text-convertible* sibling following the checkbox (non-convertible
siblings are skipped).  Every item of every list, at any nesting depth,
goes through `handleListItem` (list dispatch maps it over the items, and a
nested list recurses through `ToBlocks` into the same dispatch). -/
theorem c2_task_item_always_todo (pre post sibs : List MdNode)
    (chk : Bool) (bulleted : Bool)
    (hpre : ∀ x ∈ pre, isTaskTextBlock x = false) :
    (∀ r, handleListItem
        (.listItem (pre ++ .textBlock (.taskCheckbox chk :: sibs) :: post))
        bulleted = .ok r →
      r = handleTaskItem (.textBlock (.taskCheckbox chk :: sibs)) ∧
      r = some (.toDoBuilder chk
        (((sibs.filter IsConvertableToRichText).map ExtractRichTexts).join)) ∧
      (∀ (b : Bool) (mc : NtRichTextBuilders) (ch : NtBlockBuilders),
        r ≠ some (.listItemBuilder b mc ch))) ∧
    (∀ (checked : Bool) (labels : NtRichTextBuilders),
      NtBlockBuilder.Build (.toDoBuilder checked labels) =
        (labels.Build).map fun rts => NtBlock.toDo checked rts) ∧
    (∀ (marker : Char) (items : List MdNode), items ≠ [] →
      ToBlocks (.list marker items) =
        handleList (marker == '-' || marker == '+' || marker == '*') items) ∧
    (∀ (b : Bool) (items1 items2 : List MdNode) (item : MdNode)
        (bs : NtBlockBuilders),
      handleList b (items1 ++ item :: items2) = .ok bs →
      ∃ rb, handleListItem item b = .ok rb ∧ rb ∈ bs) := by
  refine ⟨fun r hr => ?_, fun checked labels => ?_, fun marker items hne => ?_,
    fun b items1 items2 item bs hls => ?_⟩
  · rw [handleListItem.eq_def] at hr
    dsimp only at hr
    set mainContent : NtRichTextBuilders :=
      (match (MdNode.listItem
          (pre ++ .textBlock (.taskCheckbox chk :: sibs) :: post)).firstChild with
        | some child =>
            if IsConvertableToRichText child then ExtractRichTexts child else []
        | Option.none => []) with hmc
    have hguard : (!mainContent.isEmpty) = true → true = true → pre ≠ [] := by
      intro hsm _ habs
      subst habs
      rw [hmc] at hsm
      simp only [MdNode.firstChild, MdNode.children, List.nil_append,
        List.head?] at hsm
      rw [if_neg (by simp [IsConvertableToRichText])] at hsm
      simp at hsm
    cases hlf : liFold (!mainContent.isEmpty)
        (MdNode.listItem
          (pre ++ .textBlock (.taskCheckbox chk :: sibs) :: post)).children
        true [] with
    | panicked m =>
        rw [hlf] at hr
        cases hr
    | ok res =>
        have hres := liFold_finds_task chk sibs post pre (!mainContent.isEmpty)
          true [] res hpre hguard
          (by rw [← hlf]; rfl)
        rw [hlf, hres] at hr
        cases hr
        rw [handleTaskItem_eq chk sibs]
        exact ⟨rfl, rfl, by simp⟩
  · cases hl : NtRichTextBuilders.Build labels <;>
      simp [NtBlockBuilder.Build, hl, GoResult.map]
  · simp only [ToBlocks]
    rw [if_neg (by simp [hne])]
  · induction items1 generalizing bs with
    | nil =>
        simp only [List.nil_append, handleList] at hls
        cases hli : handleListItem item b with
        | panicked m => rw [hli] at hls; cases hls
        | ok rb =>
            rw [hli] at hls
            cases hrest : handleList b items2 with
            | panicked m => rw [hrest] at hls; simp [GoResult.map] at hls
            | ok bs2 =>
                rw [hrest] at hls
                simp only [GoResult.map] at hls
                cases hls
                exact ⟨rb, rfl, List.mem_cons_self _ _⟩
    | cons it1 rest1 ih =>
        simp only [List.cons_append, handleList] at hls
        cases hli : handleListItem it1 b with
        | panicked m => rw [hli] at hls; cases hls
        | ok rb1 =>
            rw [hli] at hls
            cases hrest : handleList b (rest1 ++ item :: items2) with
            | panicked m => rw [hrest] at hls; simp [GoResult.map] at hls
            | ok bs2 =>
                rw [hrest] at hls
                simp only [GoResult.map] at hls
                cases hls
                obtain ⟨rb, h1, h2⟩ := ih _ hrest
                exact ⟨rb, h1, List.mem_cons_of_mem _ h2⟩

theorem c2_task_item_always_todo_witness :
    (∀ x ∈ ([] : List MdNode), isTaskTextBlock x = false) ∧
    handleListItem (.listItem [.textBlock [.taskCheckbox true, .text "A"]]) true =
      .ok (some (.toDoBuilder true
        [some (NewNtRichTextBuilder (NewTextRichText "A"))])) ∧
    some (NtBlockBuilder.toDoBuilder true
        [some (NewNtRichTextBuilder (NewTextRichText "A"))]) =
      handleTaskItem (.textBlock [.taskCheckbox true, .text "A"]) ∧
    (∀ (b : Bool) (mc : NtRichTextBuilders) (ch : NtBlockBuilders),
      some (NtBlockBuilder.toDoBuilder true
          [some (NewNtRichTextBuilder (NewTextRichText "A"))]) ≠
        some (.listItemBuilder b mc ch)) := by
  have hconv : IsConvertableToRichText
      (.textBlock [.taskCheckbox true, .text "A"]) = false := by
    simp [IsConvertableToRichText]
  have htsk : handleTaskItem (.textBlock [.taskCheckbox true, .text "A"]) =
      some (.toDoBuilder true
        [some (NewNtRichTextBuilder (NewTextRichText "A"))]) := by
    rw [handleTaskItem_eq true [.text "A"]]
    simp [List.filter_cons, IsConvertableToRichText,
      ExtractRichTexts_leaf (n := MdNode.text "A") rfl, ToRichText]
  have hlf : liFold false
      [(.textBlock [.taskCheckbox true, .text "A"] : MdNode)] true [] =
      .ok (.inr (handleTaskItem (.textBlock [.taskCheckbox true, .text "A"]))) := by
    rw [liFold.eq_def]
    simp
  have heval : handleListItem
      (.listItem [.textBlock [.taskCheckbox true, .text "A"]]) true =
      .ok (some (.toDoBuilder true
        [some (NewNtRichTextBuilder (NewTextRichText "A"))])) := by
    rw [handleListItem.eq_def]
    dsimp only
    simp only [MdNode.firstChild, MdNode.children, List.head?, hconv,
      Bool.false_eq_true, if_false, List.isEmpty_nil, Bool.not_true]
    rw [hlf, htsk]
  have h := (c2_task_item_always_todo [] [] [.text "A"] true true
    (by simp)).1 _ heval
  exact ⟨by simp, heval, h.1, h.2.2⟩

/-- An inline wrapper kind for the decoration-composition property:
emphasis (of a level), strikethrough or code span. -/
inductive InlineWrapper where
  | emphasisW (level : Nat)
  | strikethroughW
  | codeSpanW
deriving DecidableEq, Repr

/-- Wrap a subtree in one inline ancestor node. -/
def wrapNode : InlineWrapper → MdNode → MdNode
  | .emphasisW level, t => .emphasis level [t]
  | .strikethroughW, t => .strikethrough [t]
  | .codeSpanW, t => .codeSpan [t]

/-- Wrap a subtree in a nest of inline ancestors, the list head outermost. -/
def wrapAll (ws : List InlineWrapper) (t : MdNode) : MdNode :=
  ws.foldr wrapNode t

/-- The decorator `decorateRichTexts` attaches for each wrapper kind. -/
def wrapperDecorator : InlineWrapper → RichTextDecorator
  | .emphasisW level => if level = 1 then .italic else .bold
  | .strikethroughW => .strikethrough
  | .codeSpanW => .code

theorem ExtractRichTexts_wrapNode (w : InlineWrapper) (t : MdNode) :
    ExtractRichTexts (wrapNode w t) =
      (ExtractRichTexts t).map
        (Option.map (NtRichTextBuilder.DecorateWith · (wrapperDecorator w))) := by
  cases w with
  | emphasisW level =>
      rw [show wrapNode (.emphasisW level) t = .emphasis level [t] from rfl,
        ExtractRichTexts_node (by simp [MdNode.children])]
      simp [MdNode.children, extractChildren_cons, extractChildren_nil,
        decorateRichTexts, wrapperDecorator]
  | strikethroughW =>
      rw [show wrapNode .strikethroughW t = .strikethrough [t] from rfl,
        ExtractRichTexts_node (by simp [MdNode.children])]
      simp [MdNode.children, extractChildren_cons, extractChildren_nil,
        decorateRichTexts, wrapperDecorator]
  | codeSpanW =>
      rw [show wrapNode .codeSpanW t = .codeSpan [t] from rfl,
        ExtractRichTexts_node (by simp [MdNode.children])]
      simp [MdNode.children, extractChildren_cons, extractChildren_nil,
        decorateRichTexts, wrapperDecorator]

theorem ExtractRichTexts_wrapAll (ws : List InlineWrapper) (t : MdNode) :
    ExtractRichTexts (wrapAll ws t) =
      (ExtractRichTexts t).map
        (Option.map fun b =>
          ⟨b.base, b.decorators ++ (ws.map wrapperDecorator).reverse⟩) := by
  induction ws with
  | nil =>
      simp only [wrapAll, List.foldr_nil, List.map_nil, List.reverse_nil,
        List.append_nil]
      have : (fun (b : NtRichTextBuilder) =>
          (⟨b.base, b.decorators⟩ : NtRichTextBuilder)) = id := by
        funext b; cases b; rfl
      rw [this]
      simp
  | cons w rest ih =>
      rw [show wrapAll (w :: rest) t = wrapNode w (wrapAll rest t) from rfl,
        ExtractRichTexts_wrapNode, ih, List.map_map]
      apply List.map_congr_left
      intro ob _
      cases ob with
      | none => rfl
      | some b =>
          simp [NtRichTextBuilder.DecorateWith, List.append_assoc]

/-- Whether a decorator sets the Bold flag. -/
def appliesBold : RichTextDecorator → Bool
  | .bold => true
  | _ => false

/-- Whether a decorator sets the Italic flag. -/
def appliesItalic : RichTextDecorator → Bool
  | .italic => true
  | _ => false

/-- Whether a decorator sets the Strikethrough flag. -/
def appliesStrikethrough : RichTextDecorator → Bool
  | .strikethrough => true
  | _ => false

/-- Whether a decorator sets the Code flag. -/
def appliesCode : RichTextDecorator → Bool
  | .code => true
  | _ => false

/-- Apply a decorator list in order (the loop of `Build`). -/
def applyAll (ds : List RichTextDecorator) (rt : NtRichText) : NtRichText :=
  ds.foldl (fun t d => applyDecorator d t) rt

theorem NtRichTextBuilder_Build_eq_applyAll (b : NtRichTextBuilder) :
    b.Build = applyAll b.decorators b.base := rfl

theorem applyAll_bold (ds : List RichTextDecorator) (rt : NtRichText) :
    (applyAll ds rt).annotations.bold =
      (rt.annotations.bold || ds.any appliesBold) := by
  induction ds generalizing rt with
  | nil => simp [applyAll]
  | cons d rest ih =>
      rw [show applyAll (d :: rest) rt = applyAll rest (applyDecorator d rt)
        from rfl, ih]
      cases d <;> simp [applyDecorator, appliesBold, Bool.or_assoc]

theorem applyAll_italic (ds : List RichTextDecorator) (rt : NtRichText) :
    (applyAll ds rt).annotations.italic =
      (rt.annotations.italic || ds.any appliesItalic) := by
  induction ds generalizing rt with
  | nil => simp [applyAll]
  | cons d rest ih =>
      rw [show applyAll (d :: rest) rt = applyAll rest (applyDecorator d rt)
        from rfl, ih]
      cases d <;> simp [applyDecorator, appliesItalic, Bool.or_assoc]

theorem applyAll_strikethrough (ds : List RichTextDecorator) (rt : NtRichText) :
    (applyAll ds rt).annotations.strikethrough =
      (rt.annotations.strikethrough || ds.any appliesStrikethrough) := by
  induction ds generalizing rt with
  | nil => simp [applyAll]
  | cons d rest ih =>
      rw [show applyAll (d :: rest) rt = applyAll rest (applyDecorator d rt)
        from rfl, ih]
      cases d <;> simp [applyDecorator, appliesStrikethrough, Bool.or_assoc]

theorem applyAll_code (ds : List RichTextDecorator) (rt : NtRichText) :
    (applyAll ds rt).annotations.code =
      (rt.annotations.code || ds.any appliesCode) := by
  induction ds generalizing rt with
  | nil => simp [applyAll]
  | cons d rest ih =>
      rw [show applyAll (d :: rest) rt = applyAll rest (applyDecorator d rt)
        from rfl, ih]
      cases d <;> simp [applyDecorator, appliesCode, Bool.or_assoc]

theorem perm_any {α : Type} {l l' : List α} (h : l.Perm l') (f : α → Bool) :
    l.any f = l'.any f := by
  cases h1 : l.any f with
  | true =>
      obtain ⟨x, hx, hfx⟩ := List.any_eq_true.mp h1
      exact (List.any_eq_true.mpr ⟨x, h.mem_iff.mp hx, hfx⟩).symm
  | false =>
      cases h2 : l'.any f with
      | false => rfl
      | true =>
          obtain ⟨x, hx, hfx⟩ := List.any_eq_true.mp h2
          have := List.any_eq_true.mpr ⟨x, h.mem_iff.mpr hx, hfx⟩
          rw [h1] at this
          cases this

/-- Whether a built run carries the annotation (or link) a decorator sets. -/
def carriesAnn (rt : NtRichText) : RichTextDecorator → Bool
  | .bold => rt.annotations.bold
  | .italic => rt.annotations.italic
  | .strikethrough => rt.annotations.strikethrough
  | .code => rt.annotations.code
  | .link _ => rt.link.isSome

theorem wrapperDecorator_not_link (w : InlineWrapper) (u : String) :
    wrapperDecorator w ≠ .link u := by
  cases w with
  | emphasisW level =>
      simp only [wrapperDecorator]
      split <;> simp
  | strikethroughW => simp [wrapperDecorator]
  | codeSpanW => simp [wrapperDecorator]

theorem carriesAnn_applyAll_of_mem {ds : List RichTextDecorator}
    {d : RichTextDecorator} (hd : d ∈ ds) (hnl : ∀ u, d ≠ .link u)
    (rt : NtRichText) : carriesAnn (applyAll ds rt) d = true := by
  cases d with
  | bold =>
      simp only [carriesAnn, applyAll_bold]
      have : ds.any appliesBold = true := List.any_eq_true.mpr ⟨_, hd, rfl⟩
      simp [this]
  | italic =>
      simp only [carriesAnn, applyAll_italic]
      have : ds.any appliesItalic = true := List.any_eq_true.mpr ⟨_, hd, rfl⟩
      simp [this]
  | strikethrough =>
      simp only [carriesAnn, applyAll_strikethrough]
      have : ds.any appliesStrikethrough = true :=
        List.any_eq_true.mpr ⟨_, hd, rfl⟩
      simp [this]
  | code =>
      simp only [carriesAnn, applyAll_code]
      have : ds.any appliesCode = true := List.any_eq_true.mpr ⟨_, hd, rfl⟩
      simp [this]
  | link u => exact absurd rfl (hnl u)

theorem applyDecorator_wrapper_link (w : InlineWrapper) (rt : NtRichText) :
    (applyDecorator (wrapperDecorator w) rt).link = rt.link := by
  cases w with
  | emphasisW level =>
      simp only [wrapperDecorator]
      split <;> simp [applyDecorator]
  | strikethroughW => simp [wrapperDecorator, applyDecorator]
  | codeSpanW => simp [wrapperDecorator, applyDecorator]

theorem annotations_ext {a b : Annotations} (h1 : a.bold = b.bold)
    (h2 : a.italic = b.italic) (h3 : a.strikethrough = b.strikethrough)
    (h4 : a.code = b.code) : a = b := by
  cases a; cases b; simp_all

/-- **C7.**  Decoration composes across nesting levels: wrapping a
run-producing subtree in `k` nested emphasis/strikethrough/code ancestors
appends the `k` corresponding decorators to each builder's ordered list
(accumulation, not overwriting); after materialisation every produced run
carries all `k` annotations; the order in which the ancestors wrap the
subtree does not affect the resulting annotation set; the `link` field is
single-valued — `MakeLink` overwrites it, while annotation decorators
leave it untouched. -/
theorem c7_decoration_composes (ws ws' : List InlineWrapper) (t : MdNode) :
    (ExtractRichTexts (wrapAll ws t) =
      (ExtractRichTexts t).map
        (Option.map fun b =>
          ⟨b.base, b.decorators ++ (ws.map wrapperDecorator).reverse⟩)) ∧
    (∀ b : NtRichTextBuilder, some b ∈ ExtractRichTexts (wrapAll ws t) →
      ∀ w ∈ ws, carriesAnn b.Build (wrapperDecorator w) = true) ∧
    (ws.Perm ws' →
      (ExtractRichTexts (wrapAll ws t)).map
          (Option.map fun b => b.Build.annotations) =
        (ExtractRichTexts (wrapAll ws' t)).map
          (Option.map fun b => b.Build.annotations)) ∧
    (∀ (b : NtRichTextBuilder) (url : String),
      (b.DecorateWith (.link url)).Build.link = some url) ∧
    (∀ (b : NtRichTextBuilder) (w : InlineWrapper),
      (b.DecorateWith (wrapperDecorator w)).Build.link = b.Build.link) := by
  refine ⟨ExtractRichTexts_wrapAll ws t, fun b hb w hw => ?_, fun hperm => ?_,
    fun b url => ?_, fun b w => ?_⟩
  · rw [ExtractRichTexts_wrapAll ws t] at hb
    obtain ⟨ob, _, hob⟩ := List.mem_map.mp hb
    cases ob with
    | none => cases hob
    | some b0 =>
        simp only [Option.map_some'] at hob
        cases hob
        rw [NtRichTextBuilder_Build_eq_applyAll]
        exact carriesAnn_applyAll_of_mem
          (List.mem_append_right _
            (List.mem_reverse.mpr (List.mem_map_of_mem wrapperDecorator hw)))
          (wrapperDecorator_not_link w) _
  · rw [ExtractRichTexts_wrapAll ws t, ExtractRichTexts_wrapAll ws' t,
      List.map_map, List.map_map]
    apply List.map_congr_left
    intro ob _
    cases ob with
    | none => rfl
    | some b0 =>
        simp only [Function.comp, Option.map_some']
        congr 1
        rw [NtRichTextBuilder_Build_eq_applyAll,
          NtRichTextBuilder_Build_eq_applyAll]
        have hpd : ((ws.map wrapperDecorator).reverse).Perm
            ((ws'.map wrapperDecorator).reverse) :=
          ((List.reverse_perm _).trans (hperm.map wrapperDecorator)).trans
            (List.reverse_perm _).symm
        have hany : ∀ f : RichTextDecorator → Bool,
            (b0.decorators ++ (ws.map wrapperDecorator).reverse).any f =
            (b0.decorators ++ (ws'.map wrapperDecorator).reverse).any f :=
          fun f => perm_any ((List.Perm.refl b0.decorators).append hpd) f
        exact annotations_ext
          (by rw [applyAll_bold, applyAll_bold, hany])
          (by rw [applyAll_italic, applyAll_italic, hany])
          (by rw [applyAll_strikethrough, applyAll_strikethrough, hany])
          (by rw [applyAll_code, applyAll_code, hany])
  · rw [NtRichTextBuilder_Build_eq_applyAll]
    simp only [NtRichTextBuilder.DecorateWith, applyAll, List.foldl_append,
      List.foldl_cons, List.foldl_nil]
    simp [applyDecorator]
  · rw [NtRichTextBuilder_Build_eq_applyAll, NtRichTextBuilder_Build_eq_applyAll]
    simp only [NtRichTextBuilder.DecorateWith, applyAll, List.foldl_append,
      List.foldl_cons, List.foldl_nil]
    exact applyDecorator_wrapper_link w _

theorem c7_decoration_composes_witness :
    (some (⟨NewTextRichText "x", [.italic, .strikethrough]⟩ : NtRichTextBuilder) ∈
      ExtractRichTexts
        (wrapAll [.strikethroughW, .emphasisW 1] (.text "x"))) ∧
    (InlineWrapper.strikethroughW ∈
      ([.strikethroughW, .emphasisW 1] : List InlineWrapper)) ∧
    carriesAnn
      ((⟨NewTextRichText "x", [.italic, .strikethrough]⟩ :
        NtRichTextBuilder).Build)
      (wrapperDecorator .strikethroughW) = true ∧
    (([.strikethroughW, .emphasisW 1] : List InlineWrapper).Perm
      [.emphasisW 1, .strikethroughW]) ∧
    (ExtractRichTexts (wrapAll [.strikethroughW, .emphasisW 1] (.text "x"))).map
        (Option.map fun b => b.Build.annotations) =
      (ExtractRichTexts (wrapAll [.emphasisW 1, .strikethroughW] (.text "x"))).map
        (Option.map fun b => b.Build.annotations) := by
  have hperm : ([.strikethroughW, .emphasisW 1] : List InlineWrapper).Perm
      [.emphasisW 1, .strikethroughW] := List.Perm.swap _ _ _
  have hmem : some (⟨NewTextRichText "x", [.italic, .strikethrough]⟩ :
      NtRichTextBuilder) ∈
      ExtractRichTexts (wrapAll [.strikethroughW, .emphasisW 1] (.text "x")) := by
    rw [(c7_decoration_composes [.strikethroughW, .emphasisW 1]
      [.emphasisW 1, .strikethroughW] (.text "x")).1]
    rw [ExtractRichTexts_leaf (n := MdNode.text "x") rfl]
    simp [ToRichText, wrapperDecorator, NewNtRichTextBuilder]
  refine ⟨hmem, by simp, ?_, hperm, ?_⟩
  · exact (c7_decoration_composes [.strikethroughW, .emphasisW 1]
      [.emphasisW 1, .strikethroughW] (.text "x")).2.1 _ hmem
      .strikethroughW (by simp)
  · exact (c7_decoration_composes [.strikethroughW, .emphasisW 1]
      [.emphasisW 1, .strikethroughW] (.text "x")).2.2.1 hperm
